import Mathlib

/-!
Verification development for the `postgresql-mcp-adapter` repository.

The file embeds the core of `src/services/fileService.js` (class `FileService`)
as executable Lean definitions and proves properties of the file-application
engine, the content merger, the backup manager, the path-correction heuristic
and the integration-status probe.

Modelling conventions:
* JS strings are modelled as `List Char` (`Str`).  All inputs of interest are
  ASCII, where JS UTF-16 code-unit indexing (used by `slice`) coincides with
  character indexing.
* Asynchronous file-system calls are modelled by a pure state-passing
  semantics over an explicit file-system value (`FS`): `fs.writeFile`,
  `fs.appendFile`, `fs.copyFile` update a path-to-content map, `fs.readFile`
  and `fs.access` consult it, and `fs.mkdir` always succeeds.  The single
  modelled per-file I/O failure site is the `fs.access(dir, W_OK)` writability
  check (a directory listed in `FS.unwritableDirs` makes it throw), which is
  the generic stand-in for an unwritable target.  JS exceptions are modelled
  by the explicit error branches of the translated control flow.
* Regex operations of the source are translated into equivalent direct
  character scanners; each scanner's doc comment states the JS regex it
  implements and how the backtracking semantics reduce to the scan.
* `new Date().toISOString()` is modelled by formatting an explicit `JsDate`
  record of UTC fields; each `createBackup` call samples a caller-supplied
  clock `Ctx.clock` at an increasing tick, mirroring one `new Date()` per
  backup.
-/

/-- JS strings, modelled as lists of characters. -/
abbrev Str := List Char

/-- JS truthiness of an optional string field: `undefined`/`null`/`""` are
falsy, every non-empty string is truthy. -/
def truthy : Option Str → Bool
  | some (_ :: _) => true
  | _ => false

/-- JS `String.prototype.includes` (substring test). -/
def containsSub (pat : Str) : Str → Bool
  | [] => pat.isPrefixOf []
  | c :: rest => pat.isPrefixOf (c :: rest) || containsSub pat rest

/-- Index of the first occurrence of `pat` in `s` (JS `String.prototype.indexOf`). -/
def findSubIdx (pat : Str) : Str → Option Nat
  | [] => if pat.isPrefixOf ([] : Str) then some 0 else none
  | c :: rest =>
    if pat.isPrefixOf (c :: rest) then some 0
    else (findSubIdx pat rest).map (· + 1)

/-- JS `str.replace(new RegExp(pat, 'g'), rep)` for a pattern that matches the
literal string `pat`: leftmost, non-overlapping replacement of every
occurrence.  The scan is phrased with a skip counter (a positive counter
consumes one already-matched character per step, which is `List.drop` in
structural form): after emitting the replacement the scanner skips the rest of
the matched occurrence.  (For an empty pattern the source never calls this;
the scan then leaves the string unchanged.) -/
def replaceAllAux (pat rep : Str) : Nat → Str → Str
  | _, [] => []
  | skip + 1, _ :: rest => replaceAllAux pat rep skip rest
  | 0, c :: rest =>
    if pat.isPrefixOf (c :: rest) ∧ pat ≠ [] then
      rep ++ replaceAllAux pat rep (pat.length - 1) rest
    else
      c :: replaceAllAux pat rep 0 rest

/-- Global literal replacement (see `replaceAllAux`). -/
def replaceAll (pat rep s : Str) : Str := replaceAllAux pat rep 0 s

/-- Order-preserving de-duplication keeping first occurrences — the iteration
order of a JS `Set` built from an array (`[...new Set(arr)]`) — scanning with
the set of already-emitted elements. -/
def dedupFirstAux (seen : List Str) : List Str → List Str
  | [] => []
  | a :: l => if a ∈ seen then dedupFirstAux seen l else a :: dedupFirstAux (a :: seen) l

/-- `[...new Set(arr)]` (see `dedupFirstAux`). -/
def dedupFirst (l : List Str) : List Str := dedupFirstAux [] l

/-- Split a list at every occurrence of the character `c` (the segment view of
a path string). -/
def splitOnChar (c : Char) : Str → List Str
  | [] => [[]]
  | x :: rest =>
    let r := splitOnChar c rest
    if x = c then [] :: r
    else
      match r with
      | h :: t => (x :: h) :: t
      | [] => [[x]]

/-- One step of POSIX path normalization over segments: empty and `.` segments
are dropped, `..` pops the last kept segment (and is dropped at the root,
matching Node's behaviour for absolute paths). -/
def normStep (acc : List Str) (seg : Str) : List Str :=
  if seg = [] ∨ seg = ['.'] then acc
  else if seg = ['.', '.'] then acc.dropLast
  else acc ++ [seg]

/-- Normalize a list of path segments of an absolute path. -/
def normAbs (segs : List Str) : List Str := segs.foldl normStep []

/-- Render normalized segments as an absolute path string. -/
def renderAbs (segs : List Str) : Str := '/' :: List.intercalate ['/'] segs

/-- Node `path.normalize` restricted to absolute paths without a trailing
slash (the only shape the engine normalizes: its own project root and the
output of `path.resolve`). -/
def posixNormalize (s : Str) : Str := renderAbs (normAbs (splitOnChar '/' s))

/-- Node `path.resolve(root, p)` for an absolute `root`: an absolute `p` wins,
otherwise `p` is joined onto `root`; the result is normalized. -/
def posixResolve (root p : Str) : Str :=
  if p.head? = some '/' then renderAbs (normAbs (splitOnChar '/' p))
  else renderAbs (normAbs (splitOnChar '/' root ++ splitOnChar '/' p))

/-- Node `path.dirname` on a normalized absolute path: drop the last segment. -/
def dirnameStr (s : Str) : Str := renderAbs ((normAbs (splitOnChar '/' s)).dropLast)

/-- Node `path.basename` on the relative descriptor paths the engine passes to
`createBackup`: the last non-empty `/`-separated segment. -/
def basenameStr (p : Str) : Str :=
  (((splitOnChar '/' p).filter (fun s => !s.isEmpty)).getLast?).getD []

/-- Node `path.join` of an absolute base with a relative part, as used for the
backup destination: concatenate with a separator and normalize. -/
def joinPath (a b : Str) : Str := posixNormalize (a ++ '/' :: b)

/-! ### String constants of `fileService.js` -/

/-- Keyword scanned by the import-statement regex. -/
def kwImport : Str := "import".toList

/-- Keyword scanned by the package-declaration regex. -/
def kwPackage : Str := "package".toList

/-- First alternative of the method-visibility alternation. -/
def kwPublic : Str := "public".toList

/-- Second alternative of the method-visibility alternation. -/
def kwPrivate : Str := "private".toList

/-- Third alternative of the method-visibility alternation. -/
def kwProtected : Str := "protected".toList

/-- Keyword of the optional `throws` clause in the method regex. -/
def kwThrows : Str := "throws".toList

/-- Controller marker checked by `mergeJavaFile`. -/
def sRestController : Str := "@RestController".toList

/-- Service marker checked by `mergeJavaFile`. -/
def sService : Str := "@Service".toList

/-- Comment inserted above merged method bodies. -/
def sMethodsComment : Str := "\n\n    // Added by MCP integration\n".toList

/-- Separator used by the naive Java append fallback. -/
def sSepJava : Str := "\n\n// === Added by MCP Integration ===\n".toList

/-- Separator used by the XML append fallbacks. -/
def sSepXml : Str := "\n\n<!-- Added by MCP Integration -->\n".toList

/-- Separator used by the properties/YAML append path. -/
def sSepConfig : Str := "\n\n# Added by MCP Integration\n".toList

/-- Indentation glued before the closing `</dependencies>` tag. -/
def sNl4 : Str := "\n    ".toList

/-- Two newlines (separator of unknown-extension smart merge and of joined methods). -/
def nlnl : Str := "\n\n".toList

/-- Four spaces prepended to each extracted method body. -/
def indent4 : Str := "    ".toList

/-- Opening dependency tag matched in new pom content. -/
def sDepOpen : Str := "<dependency>".toList

/-- Closing dependency tag; its length is 13. -/
def sDepClose : Str := "</dependency>".toList

/-- Opening dependencies-section tag; its length is 14. -/
def sDepsOpen : Str := "<dependencies>".toList

/-- Closing dependencies-section tag; its length is 15. -/
def sDepsClose : Str := "</dependencies>".toList

/-- Equality sign probed (vacuously) by `mergeConfigFile`. -/
def sEq : Str := "=".toList

/-- Substring that routes `.xml` files to the pom merger. -/
def sPomXml : Str := "pom.xml".toList

/-- Extension dispatching to the Java merger. -/
def sJavaExt : Str := ".java".toList

/-- Extension dispatching to the XML mergers. -/
def sXmlExt : Str := ".xml".toList

/-- Extension dispatching to the config merger. -/
def sPropsExt : Str := ".properties".toList

/-- Extension dispatching to the config merger. -/
def sYmlExt : Str := ".yml".toList

/-- Extension dispatching to the config merger. -/
def sYamlExt : Str := ".yaml".toList

/-- The `append` merge strategy. -/
def stAppend : Str := "append".toList

/-- The `replace` merge strategy. -/
def stReplace : Str := "replace".toList

/-- The default `smart` merge strategy. -/
def stSmart : Str := "smart".toList

/-! ### Scanners for the regexes of `fileService.js`

The import regex `/import\s+(?:static\s+)?([^;]+);/g` matches, at a given
position, exactly when the keyword is followed by one whitespace character and
the first `;` after the keyword sits at least two characters further on: the
`\s+` takes the first character, the greedy `[^;]+` (which cannot cross a
semicolon and subsumes the optional `static\s+`) takes the rest, and the match
extends through that first semicolon.  The same shape with keyword `package`
gives `/package\s+[^;]+;/`. -/

/-- Try the keyword-then-semicolon regex shape at the start of `s`; on success
return the index `j` of the first `;` after the keyword (the match length is
`kw.length + j + 1`). -/
def tryKeywordSemi (kw : Str) (s : Str) : Option Nat :=
  if kw.isPrefixOf s then
    let t := s.drop kw.length
    match t.head? with
    | some c =>
      if c.isWhitespace then
        match t.findIdx? (· == ';') with
        | some j => if 2 ≤ j then some j else none
        | none => none
      else none
    | none => none
  else none

/-- `extractJavaImports` of the source: collect every (leftmost,
non-overlapping) match of `/import\s+(?:static\s+)?([^;]+);/g`, pushing the
whole matched text; a positive skip counter consumes the remainder of the
previous match. -/
def extractJavaImportsAux : Nat → Str → List Str
  | _, [] => []
  | skip + 1, _ :: rest => extractJavaImportsAux skip rest
  | 0, c :: rest =>
    match tryKeywordSemi kwImport (c :: rest) with
    | some j =>
      (c :: rest).take (kwImport.length + j + 1) ::
        extractJavaImportsAux (kwImport.length + j) rest
    | none => extractJavaImportsAux 0 rest

/-- `extractJavaImports` of the source (see `extractJavaImportsAux`). -/
def extractJavaImports (s : Str) : List Str := extractJavaImportsAux 0 s

/-- The import-removal step of `updateJavaImports`:
`content.replace(/\nimport\s+(?:static\s+)?[^;]+;/g, '')`; a positive skip
counter consumes the remainder of the previous match. -/
def removeNLImportsAux : Nat → Str → Str
  | _, [] => []
  | skip + 1, _ :: rest => removeNLImportsAux skip rest
  | 0, c :: rest =>
    if c = '\n' then
      match tryKeywordSemi kwImport rest with
      | some j => removeNLImportsAux (kwImport.length + j + 1) rest
      | none => c :: removeNLImportsAux 0 rest
    else c :: removeNLImportsAux 0 rest

/-- The import-removal replacement (see `removeNLImportsAux`). -/
def removeNLImports (s : Str) : Str := removeNLImportsAux 0 s

/-- First match of `/package\s+[^;]+;/` in `s`, as `(index, index + length)`
(the source uses `match.index + match[0].length` as `packageEnd`). -/
def findPackageMatchFrom : Str → Nat → Option (Nat × Nat)
  | [], _ => none
  | c :: rest, i =>
    match tryKeywordSemi kwPackage (c :: rest) with
    | some j => some (i, i + kwPackage.length + j + 1)
    | none => findPackageMatchFrom rest (i + 1)

/-- First package-declaration match of a content string. -/
def findPackageMatch (s : Str) : Option (Nat × Nat) := findPackageMatchFrom s 0

/-- `updateJavaImports` of the source: locate the package declaration, strip
every `\n`-preceded import statement from the whole content, and splice the
joined import list in at the original `packageEnd` offset. -/
def updateJavaImports (content : Str) (imports : List Str) : Str :=
  match findPackageMatch content with
  | none => content
  | some pm =>
    let withoutImports := removeNLImports content
    let importSection :=
      if imports.isEmpty then [] else nlnl ++ List.intercalate ['\n'] imports
    withoutImports.take pm.2 ++ importSection ++ withoutImports.drop pm.2

/-- The class-body split `existingContent.match(/^([\s\S]*?)(}\s*)$/)`: it
succeeds exactly when the last non-whitespace character is `}` (the lazy first
group forces the split at the last closing brace, which must be followed only
by whitespace), yielding the text before that brace and the brace with its
trailing whitespace. -/
def classSplit (s : Str) : Option (Str × Str) :=
  let tailWs := (s.reverse.takeWhile (·.isWhitespace)).length
  let k := s.length - tailWs
  if 0 < k then
    if s[k - 1]? = some '}' then some (s.take (k - 1), s.drop (k - 1)) else none
  else none

/-- JS `\w` (ASCII word character). -/
def isWordChar (c : Char) : Bool := c.isAlphanum || c == '_'

/-- The return-type character class `[\w<>,\s]` of the method regex. -/
def isRTChar (c : Char) : Bool := isWordChar c || c == '<' || c == '>' || c == ',' || c.isWhitespace

/-- The throws-clause character class `[\w,\s]` of the method regex. -/
def isTWChar (c : Char) : Bool := isWordChar c || c == ',' || c.isWhitespace

/-- Strip trailing whitespace. -/
def dropTrailingWs (s : Str) : Str := (s.reverse.dropWhile (·.isWhitespace)).reverse

/-- JS `String.prototype.trim` (ASCII whitespace). -/
def trimStr (s : Str) : Str := dropTrailingWs (s.dropWhile (·.isWhitespace))

/-- One iteration of the annotation prefix `(?:@\w+(?:\([^)]*\))?\s*)*`: an
`@` followed by a non-empty word, an optional parenthesis group (consumed
through the first `)` when one exists — leaving it unconsumed dead-ends the
overall match, so consuming is the only live alternative), then greedy
whitespace. -/
def annStep (s : Str) : Option Str :=
  match s with
  | '@' :: t =>
    let w := t.takeWhile isWordChar
    if w.isEmpty then none
    else
      let u := t.drop w.length
      let u₂ :=
        match u with
        | '(' :: v =>
          match v.findIdx? (· == ')') with
          | some j => v.drop (j + 1)
          | none => u
        | _ => u
      some (u₂.dropWhile (·.isWhitespace))
  | _ => none

/-- Iterate `annStep` to a fixpoint.  Each successful step consumes at least
two characters, so `s.length` steps of fuel are never exhausted; reducing the
iteration count on failure cannot resurrect the match (the position then rests
on an `@` or inside skipped text, where the visibility keyword cannot start). -/
def skipAnnotationsFuel : Nat → Str → Str
  | 0, s => s
  | fuel + 1, s =>
    match annStep s with
    | some t => skipAnnotationsFuel fuel t
    | none => s

/-- The full annotation prefix of the method regex. -/
def skipAnnotations (s : Str) : Str := skipAnnotationsFuel s.length s

/-- The ordered visibility alternation `(?:public|private|protected)`. -/
def matchKw (s : Str) : Option (Nat × Str) :=
  if kwPublic.isPrefixOf s then some (kwPublic.length, s.drop kwPublic.length)
  else if kwPrivate.isPrefixOf s then some (kwPrivate.length, s.drop kwPrivate.length)
  else if kwProtected.isPrefixOf s then some (kwProtected.length, s.drop kwProtected.length)
  else none

/-- Decide whether the text strictly between `)` and the next `{` matches
`\s*(?:throws\s+[\w,\s]+)?\s*`: either all whitespace, or leading whitespace,
`throws`, at least one whitespace and one further class character, with every
remaining character in `[\w,\s]`. -/
def qOk (q : Str) : Bool :=
  q.all (·.isWhitespace) ||
  (let w := q.dropWhile (·.isWhitespace)
   kwThrows.isPrefixOf w &&
   (let r := w.drop kwThrows.length
    decide (2 ≤ r.length) && r.head?.any (·.isWhitespace) && r.all isTWChar))

/-- Try the method regex
`/((?:@\w+(?:\([^)]*\))?\s*)*(?:public|private|protected)\s+[\w<>,\s]+\s+\w+\s*\([^)]*\)\s*(?:throws\s+[\w,\s]+)?\s*\{[^}]*\})/`
at the start of `s`.  After the annotations and the visibility keyword, the
region up to the first character outside `[\w<>,\s]` must end at `(`; writing
`r2` for that region without trailing whitespace, the backtracking of
`\s+[\w<>,\s]+\s+\w+\s*` succeeds exactly when the region starts with
whitespace, the maximal word-run suffix `n` of `r2` is non-empty, the
character before it is whitespace, and at least two characters precede that
whitespace (index `i ≥ 3`).  The parameter list runs to the first `)`, the
throws region to the first `{` is checked by `qOk`, and the body runs to the
first `}`.  On success, returns the match length minus one. -/
def tryMethodAt (s : Str) : Option Nat :=
  let a := skipAnnotations s
  let annLen := s.length - a.length
  match matchKw a with
  | none => none
  | some kt =>
    let t := kt.2
    let r0 := t.takeWhile isRTChar
    match t.drop r0.length, r0.head? with
    | '(' :: u, some c0 =>
      if c0.isWhitespace then
        let r2 := dropTrailingWs r0
        let n := (r2.reverse.takeWhile isWordChar).length
        let i := r2.length - n
        if 0 < n ∧ 3 ≤ i ∧ (r2[i - 1]?.any (·.isWhitespace)) then
          match u.findIdx? (· == ')') with
          | some jp =>
            let afterParams := u.drop (jp + 1)
            let q := afterParams.takeWhile (· != '{')
            match afterParams.drop q.length with
            | '{' :: body =>
              if qOk q then
                match body.findIdx? (· == '}') with
                | some jb => some (annLen + kt.1 + r0.length + jp + q.length + jb + 3)
                | none => none
              else none
            | _ => none
          | none => none
        else none
      else none
    | _, _ => none

/-- `extractJavaMethods` of the source: every (leftmost, non-overlapping)
match of the method regex, trimmed and prefixed with four spaces; a positive
skip counter consumes the remainder of the previous match. -/
def extractJavaMethodsAux : Nat → Str → List Str
  | _, [] => []
  | skip + 1, _ :: rest => extractJavaMethodsAux skip rest
  | 0, c :: rest =>
    match tryMethodAt (c :: rest) with
    | some k =>
      (indent4 ++ trimStr ((c :: rest).take (k + 1))) ::
        extractJavaMethodsAux k rest
    | none => extractJavaMethodsAux 0 rest

/-- `extractJavaMethods` of the source (see `extractJavaMethodsAux`). -/
def extractJavaMethods (s : Str) : List Str := extractJavaMethodsAux 0 s

/-- `mergeJavaFile` of the source. -/
def mergeJavaFile (existingContent newContent : Str) : Str :=
  let existingImports := extractJavaImports existingContent
  let newImports := extractJavaImports newContent
  let allImports := dedupFirst (existingImports ++ newImports)
  if containsSub sRestController existingContent || containsSub sService existingContent then
    match classSplit existingContent with
    | some bc =>
      let newMethods := extractJavaMethods newContent
      let merged := bc.1 ++
        (if newMethods.isEmpty then [] else sMethodsComment ++ List.intercalate nlnl newMethods)
        ++ bc.2
      updateJavaImports merged allImports
    | none => existingContent ++ sSepJava ++ newContent
  else existingContent ++ sSepJava ++ newContent

/-- Collect every match of `/<dependency>[\s\S]*?<\/dependency>/g`: from each
`<dependency>` through the first following `</dependency>` (its length is
`j + 13` where `j` is the closing tag's index; the closing tag cannot start
inside the opening one); a positive skip counter consumes the remainder of
the previous match. -/
def extractDepsAux : Nat → Str → List Str
  | _, [] => []
  | skip + 1, _ :: rest => extractDepsAux skip rest
  | 0, c :: rest =>
    if sDepOpen.isPrefixOf (c :: rest) then
      match findSubIdx sDepClose (c :: rest) with
      | some j => (c :: rest).take (j + 13) :: extractDepsAux (j + 12) rest
      | none => extractDepsAux 0 rest
    else extractDepsAux 0 rest

/-- The dependency-block matches of new pom content (see `extractDepsAux`). -/
def extractDeps (s : Str) : List Str := extractDepsAux 0 s

/-- First match of the lazy `/<dependencies>([\s\S]*?)<\/dependencies>/`: the
first `<dependencies>` that has a later `</dependencies>`; returns the open
tag's index and the inner length (`<dependencies>` is 14 characters,
`</dependencies>` is 15). -/
def findDepSpan : Str → Option (Nat × Nat)
  | [] => none
  | c :: rest =>
    if sDepsOpen.isPrefixOf (c :: rest) then
      match findSubIdx sDepsClose ((c :: rest).drop 14) with
      | some j => some (0, j)
      | none => (findDepSpan rest).map (fun p => (p.1 + 1, p.2))
    else (findDepSpan rest).map (fun p => (p.1 + 1, p.2))

/-- `mergePomXml` of the source. -/
def mergePomXml (existingContent newContent : Str) : Str :=
  if containsSub sDepOpen newContent then
    match findDepSpan existingContent with
    | some ij =>
      let afterOpen := existingContent.drop (ij.1 + 14)
      let existingDeps := afterOpen.take ij.2
      match extractDeps newContent with
      | [] => existingContent ++ sSepXml ++ newContent
      | deps =>
        let updatedDeps := existingDeps ++ ['\n'] ++ List.intercalate ['\n'] deps ++ sNl4
        existingContent.take ij.1 ++ sDepsOpen ++ updatedDeps ++ sDepsClose ++
          afterOpen.drop (ij.2 + 15)
    | none => existingContent ++ sSepXml ++ newContent
  else existingContent ++ sSepXml ++ newContent

/-- `mergeXmlFile` of the source. -/
def mergeXmlFile (existingContent newContent : Str) : Str :=
  existingContent ++ sSepXml ++ newContent

/-- `mergeConfigFile` of the source (both arms of its conditional produce the
same separator, faithfully preserved). -/
def mergeConfigFile (existingContent newContent : Str) : Str :=
  let sep := if containsSub sEq existingContent then sSepConfig else sSepConfig
  existingContent ++ sep ++ newContent

/-- Node `path.extname(p).toLowerCase()`: the suffix of the last path segment
from its last dot, empty when the only dot leads the segment. -/
def extnameLower (p : Str) : Str :=
  let b := ((splitOnChar '/' p).getLast?).getD []
  let e :=
    match b.reverse.findIdx? (· == '.') with
    | some ir =>
      let i := b.length - 1 - ir
      if i = 0 then [] else b.drop i
    | none => []
  e.map Char.toLower

/-- `mergeFileContent` of the source: strategy dispatch, then smart merge by
file extension. -/
def mergeFileContent (existingContent newContent filePath strategy : Str) : Str :=
  let ext := extnameLower filePath
  if strategy = stAppend then existingContent ++ '\n' :: newContent
  else if strategy = stReplace then newContent
  else if ext = sJavaExt then mergeJavaFile existingContent newContent
  else if ext = sXmlExt then
    if containsSub sPomXml filePath then mergePomXml existingContent newContent
    else mergeXmlFile existingContent newContent
  else if ext = sPropsExt ∨ ext = sYmlExt ∨ ext = sYamlExt then
    mergeConfigFile existingContent newContent
  else existingContent ++ nlnl ++ newContent

/-! ### Package-path correction (`applyGeneratedFiles`, correction block)

The correction regex is `/^(.*\/com\/example\/)([^\/]+)\/(.*)/` with a greedy
leading group: the base path ends at the last occurrence of `/com/example/`
whose suffix still contains a `/` at index at least 1 (so that `([^\/]+)\/`
can match); the middle segment then runs to the first `/` of that suffix. -/

/-- The base-package marker `/com/example/`; its length is 13. -/
def sComExample : Str := "/com/example/".toList

/-- The namespace prefix `com.example.` rewritten inside Java content. -/
def sComExDot : Str := "com.example.".toList

/-- All start indices at which `pat` occurs in the scanned string. -/
def occIdxFrom (pat : Str) : Str → Nat → List Nat
  | [], _ => []
  | c :: rest, i =>
    (if pat.isPrefixOf (c :: rest) then [i] else []) ++ occIdxFrom pat rest (i + 1)

/-- The split `(basePath, middlePart, restOfPath)` chosen by the greedy
correction regex, when the pattern matches. -/
def lastViableComEx (p : Str) : Option (Str × Str × Str) :=
  let cands := (occIdxFrom sComExample p 0).filter (fun i =>
    match (p.drop (i + 13)).findIdx? (· == '/') with
    | some j => decide (1 ≤ j)
    | none => false)
  match cands.getLast? with
  | some i =>
    let suffix := p.drop (i + 13)
    match suffix.findIdx? (· == '/') with
    | some j => some (p.take (i + 13), suffix.take j, suffix.drop (j + 1))
    | none => none
  | none => none

/-- The path-correction block of `applyGeneratedFiles`: when enabled and the
regex matches with a middle segment that contains `_` or is entirely
lower-case, the segment is stripped from the path, and (for a truthy content
on a `.java` original path) `com.example.<middle>.` is rewritten to
`com.example.` throughout the content.  The rewrite is modelled as literal
replacement, which agrees with the source's built regex whenever the middle
segment contains no regex metacharacters (it is a path segment, so it cannot
contain `/`). -/
def pathCorrect (removeFlag : Bool) (p : Str) (content : Option Str) : Str × Option Str :=
  if removeFlag && containsSub sComExample p then
    match lastViableComEx p with
    | some bmr =>
      let middle := bmr.2.1
      if '_' ∈ middle ∨ middle = middle.map Char.toLower then
        let cp := bmr.1 ++ bmr.2.2
        let cc :=
          if truthy content && sJavaExt.isSuffixOf p then
            some (replaceAll (sComExDot ++ middle ++ ['.']) sComExDot (content.getD []))
          else content
        (cp, cc)
      else (p, content)
    | none => (p, content)
  else (p, content)

/-! ### Dates and backup destinations (`createBackup`) -/

/-- The UTC fields of a JS `Date`, as rendered by `toISOString`. -/
structure JsDate where
  year : Nat
  month : Nat
  day : Nat
  hour : Nat
  minute : Nat
  second : Nat
  ms : Nat
deriving DecidableEq

/-- Zero-pad a decimal rendering to `w` digits. -/
def padNum (w n : Nat) : Str :=
  let d := (Nat.repr n).toList
  List.replicate (w - d.length) '0' ++ d

/-- JS `Date.prototype.toISOString`: `YYYY-MM-DDTHH:mm:ss.sssZ` (millisecond
precision). -/
def toISOString (d : JsDate) : Str :=
  padNum 4 d.year ++ ['-'] ++ padNum 2 d.month ++ ['-'] ++ padNum 2 d.day ++ ['T'] ++
  padNum 2 d.hour ++ [':'] ++ padNum 2 d.minute ++ [':'] ++ padNum 2 d.second ++ ['.'] ++
  padNum 3 d.ms ++ ['Z']

/-- `new Date().toISOString().replace(/[:.]/g, '-')`. -/
def backupTimestamp (d : JsDate) : Str :=
  (toISOString d).map (fun c => if c = ':' ∨ c = '.' then '-' else c)

/-- Infix of every backup file name. -/
def sBackupMid : Str := ".backup.".toList

/-! ### The file-system model and the apply pipeline -/

/-- The file-system state: existing directories (consulted by the project-root
`stat`), a path-to-content map (later writes shadow earlier ones), and the
directories whose `fs.access(dir, W_OK)` check throws. -/
structure FS where
  dirs : List Str
  files : List (Str × Str)
  unwritableDirs : List Str
deriving DecidableEq

/-- `fs.readFile` (None models a thrown ENOENT). -/
def FS.read (fs : FS) (p : Str) : Option Str := fs.files.lookup p

/-- `fs.writeFile` / `fs.copyFile` destination update. -/
def FS.write (fs : FS) (p c : Str) : FS := { fs with files := (p, c) :: fs.files }

/-- Trace events of one apply call, used to state ordering properties. -/
inductive FsEvent where
  | backup (dst : Str) (bytes : Str)
  | write (p : Str) (c : Str)
  | append (p : Str) (c : Str)
  | skipEmpty (p : Str)
  | skipAction (p : Str)
  | error (msg : Str)
deriving DecidableEq

/-- The engine's configuration: project root (an absolute path without a
trailing slash), the path-correction flag, `config.autoBackup`,
`this.backupDir`, and the clock sampled by each `new Date()` in
`createBackup`. -/
structure Ctx where
  projectRoot : Str
  removeProjectNameFromPath : Bool
  autoBackup : Bool
  backupDir : Str
  clock : Nat → JsDate

/-- The mutable state threaded through one `applyGeneratedFiles` call. -/
structure St where
  fs : FS
  tick : Nat
  filesApplied : Nat
  appliedFiles : List Str
  errors : List Str
deriving DecidableEq

/-- A generated-file descriptor as consumed by the engine. -/
structure FileDesc where
  path : Str
  action : Str
  content : Option Str
  mergeStrategy : Option Str
deriving DecidableEq

/-- A category grouping of generated files. -/
structure FileCategory where
  category : Str
  files : List FileDesc
deriving DecidableEq

/-- The structured result returned by `applyGeneratedFiles`. -/
structure ApplyResult where
  count : Nat
  files : List Str
  errors : List Str
deriving DecidableEq

/-- The backup destination
`path.join(projectRoot, backupDir, basename(rel) + '.backup.' + timestamp)`. -/
def backupDest (ctx : Ctx) (rel : Str) (d : JsDate) : Str :=
  joinPath (joinPath ctx.projectRoot ctx.backupDir)
    (basenameStr rel ++ sBackupMid ++ backupTimestamp d)

/-- `createBackup` of the source: `fs.access` throwing (missing target) is
swallowed and nothing happens; otherwise the current bytes are copied to the
timestamped destination.  The backup-directory `mkdir` always succeeds in the
model (its failure is swallowed by the same catch). -/
def createBackupM (ctx : Ctx) (st : St) (fullPath rel : Str) : St × List FsEvent :=
  match st.fs.read fullPath with
  | none => (st, [])
  | some bytes =>
    let dst := backupDest ctx rel (ctx.clock st.tick)
    ({ st with fs := st.fs.write dst bytes, tick := st.tick + 1 }, [.backup dst bytes])

/-- Error-message fragment of the security check. -/
def eSecurityPre : Str := "Security error: File path ".toList

/-- Error-message fragment of the security check. -/
def eSecurityPost : Str := " would be written outside project root".toList

/-- Error message of the directory writability check. -/
def eDirNotWritable : Str := "Directory is not writable: ".toList

/-- Prefix of every per-file error recorded by the catch block. -/
def eFailPre : Str := "Failed to apply ".toList

/-- Separator between the failed path and the cause. -/
def eColon : Str := ": ".toList

/-- Message of the project-root precondition failure. -/
def eRootMsg : Str := "Project root is not a directory: ".toList

/-- The catch block's `Failed to apply ${file.path}: ${error.message}`. -/
def failMsg (origPath msg : Str) : Str := eFailPre ++ origPath ++ eColon ++ msg

/-- The `create` action string. -/
def aCreate : Str := "create".toList

/-- The `modify` action string. -/
def aModify : Str := "modify".toList

/-- The `append` action string. -/
def aAppend : Str := "append".toList

/-- Success bookkeeping after a write: update the file map, increment
`filesApplied`, push the corrected path. -/
def finishApplied (st : St) (fullPath newContent correctedPath : Str) : St :=
  { st with
    fs := st.fs.write fullPath newContent
    filesApplied := st.filesApplied + 1
    appliedFiles := st.appliedFiles ++ [correctedPath] }

/-- The per-file body of `applyGeneratedFiles` (one iteration of the inner
loop, including its catch block): path correction, resolution against the
project root, the `startsWith` security check, directory creation and
writability check, optional backup, the empty-content skip, and the
create/append/modify dispatch. -/
def processFile (ctx : Ctx) (st : St) (file : FileDesc) : St × List FsEvent :=
  let pc := pathCorrect ctx.removeProjectNameFromPath file.path file.content
  let correctedPath := pc.1
  let correctedContent := pc.2
  let fullPath := posixResolve ctx.projectRoot correctedPath
  if ¬ (posixNormalize ctx.projectRoot).isPrefixOf (posixNormalize fullPath) then
    ({ st with
        errors := st.errors ++
          [failMsg file.path (eSecurityPre ++ correctedPath ++ eSecurityPost)] },
     [.error (failMsg file.path (eSecurityPre ++ correctedPath ++ eSecurityPost))])
  else
    let dir := dirnameStr fullPath
    if dir ∈ st.fs.unwritableDirs then
      ({ st with errors := st.errors ++ [failMsg file.path (eDirNotWritable ++ dir)] },
       [.error (failMsg file.path (eDirNotWritable ++ dir))])
    else if file.action = aCreate ∨ file.action = aModify ∨ file.action = aAppend then
      let bk := if ctx.autoBackup then createBackupM ctx st fullPath correctedPath else (st, [])
      if truthy correctedContent then
        let c := correctedContent.getD []
        if file.action = aCreate then
          (finishApplied bk.1 fullPath c correctedPath, bk.2 ++ [.write fullPath c])
        else if file.action = aAppend then
          (finishApplied bk.1 fullPath ((bk.1.fs.read fullPath).getD [] ++ c) correctedPath,
           bk.2 ++ [.append fullPath c])
        else
          match bk.1.fs.read fullPath with
          | none => (finishApplied bk.1 fullPath c correctedPath, bk.2 ++ [.write fullPath c])
          | some ex =>
            let m := mergeFileContent ex c correctedPath (file.mergeStrategy.getD stSmart)
            (finishApplied bk.1 fullPath m correctedPath, bk.2 ++ [.write fullPath m])
      else (bk.1, bk.2 ++ [.skipEmpty correctedPath])
    else (st, [.skipAction correctedPath])

/-- The fate of one descriptor, as a pure function of the static data it
depends on (the configuration and the unwritable-directory set, which the
loop never changes). -/
inductive Outcome where
  | applied
  | errored
  | skippedEmpty
  | skippedAction
deriving DecidableEq

/-- Compute a descriptor's `Outcome`. -/
def descOutcome (ctx : Ctx) (unwritable : List Str) (file : FileDesc) : Outcome :=
  let pc := pathCorrect ctx.removeProjectNameFromPath file.path file.content
  let fullPath := posixResolve ctx.projectRoot pc.1
  if ¬ (posixNormalize ctx.projectRoot).isPrefixOf (posixNormalize fullPath) then .errored
  else if dirnameStr fullPath ∈ unwritable then .errored
  else if file.action = aCreate ∨ file.action = aModify ∨ file.action = aAppend then
    if truthy pc.2 then .applied else .skippedEmpty
  else .skippedAction

/-- Fold step of the per-file loop, accumulating the event trace. -/
def applyStep (ctx : Ctx) (acc : St × List FsEvent) (file : FileDesc) : St × List FsEvent :=
  let r := processFile ctx acc.1 file
  (r.1, acc.2 ++ r.2)

/-- `applyGeneratedFiles` of the source: verify the project root (a thrown
precondition error is the `Except.error` branch), then iterate categories and
files with per-file error isolation, returning the `{count, files, errors}`
report together with the final file system and the event trace. -/
def applyGeneratedFiles (ctx : Ctx) (fs₀ : FS) (generatedFiles : List FileCategory) :
    Except Str (ApplyResult × FS × List FsEvent) :=
  if ctx.projectRoot ∈ fs₀.dirs then
    let init : St := { fs := fs₀, tick := 0, filesApplied := 0, appliedFiles := [], errors := [] }
    let r := generatedFiles.foldl (fun acc cat => cat.files.foldl (applyStep ctx) acc) (init, [])
    .ok ({ count := r.1.filesApplied, files := r.1.appliedFiles, errors := r.1.errors },
         r.1.fs, r.2)
  else .error (eRootMsg ++ ctx.projectRoot)

/-! ### The integration-status probe (`checkIntegrationStatus`, `findJavaFiles`) -/

/-- A directory tree: files carry contents; a directory carries a readability
flag (an unreadable directory makes `fs.readdir` and path traversal below it
throw) and named entries. -/
inductive DirTree where
  | file (content : Str)
  | dir (readable : Bool) (entries : List (Str × DirTree))

/-- Node `path.join` of a prefix with an entry name (no dot segments arise). -/
def joinSeg (a b : Str) : Str := a ++ '/' :: b

mutual

/-- `findJavaFiles` of the source: recursive scan collecting every `.java`
file's full path and the first 1000 characters of its content; a directory
whose listing throws (unreadable, or a non-directory) contributes nothing. -/
def findJavaFiles (p : Str) : DirTree → List (Str × Str)
  | .file _ => []
  | .dir false _ => []
  | .dir true es => findJavaFilesList p es

/-- Scan of one directory's entries, in order: recurse into directory
entries, collect `.java` file entries. -/
def findJavaFilesList (p : Str) : List (Str × DirTree) → List (Str × Str)
  | [] => []
  | (nm, child) :: rest =>
    (match child with
     | .dir _ _ => findJavaFiles (joinSeg p nm) child
     | .file c => if sJavaExt.isSuffixOf nm then [(joinSeg p nm, c.take 1000)] else []) ++
    findJavaFilesList p rest

end

/-- Resolve a relative segment path in a tree; traversal through an unreadable
directory (or through a file) fails, modelling the thrown `fs` errors that the
probe's catch blocks turn into absent markers. -/
def lookupPath : List Str → DirTree → Option DirTree
  | [], t => some t
  | n :: rest, .dir true es =>
    match es.lookup n with
    | some c => lookupPath rest c
    | none => none
  | _ :: _, _ => none

/-- Read a file at a relative segment path, `none` on any failure. -/
def readFileT (t : DirTree) (segs : List Str) : Option Str :=
  match lookupPath segs t with
  | some (.file c) => some c
  | _ => none

/-- The gradle build manifest name. -/
def sGradle : Str := "build.gradle".toList

/-- Path segment `src`. -/
def sSrcSeg : Str := "src".toList

/-- Path segment `main`. -/
def sMainSeg : Str := "main".toList

/-- Path segment `resources`. -/
def sResourcesSeg : Str := "resources".toList

/-- Path segment `java`. -/
def sJavaSeg : Str := "java".toList

/-- The YAML application-config name. -/
def sAppYml : Str := "application.yml".toList

/-- The properties application-config name. -/
def sAppProps : Str := "application.properties".toList

/-- Dependency marker for JPA. -/
def sJpa : Str := "spring-boot-starter-data-jpa".toList

/-- Dependency/config marker for PostgreSQL. -/
def sPg : Str := "postgresql".toList

/-- Config marker for a datasource. -/
def sDatasource : Str := "datasource".toList

/-- Entity annotation marker. -/
def sEntityM : Str := "@Entity".toList

/-- Repository content marker. -/
def sRepositoryM : Str := "Repository".toList

/-- Repository path marker. -/
def sRepoSeg : Str := "/repository/".toList

/-- The relative source root joined onto the checked path. -/
def sSrcMainJavaRel : Str := "src/main/java".toList

/-- The structured status returned by the probe (the source also computes a
`hasValidation` flag from the build content but never returns it). -/
structure IntegrationStatus where
  configured : Bool
  dependencies : Bool
  configuration : Bool
  entities : Bool
  repositories : Bool
  services : Bool
  controllers : Bool
deriving DecidableEq

/-- The probe's source scan: `findJavaFiles(path.join(checkPath,
'src/main/java'))`, where a missing or untraversable source root makes
`fs.readdir` throw and yields the empty list. -/
def probeJavaFiles (checkPath : Str) (t : DirTree) : List (Str × Str) :=
  match lookupPath [sSrcSeg, sMainSeg, sJavaSeg] t with
  | some d => findJavaFiles (joinSeg checkPath sSrcMainJavaRel) d
  | none => []

/-- `checkIntegrationStatus` of the source: read the build manifest
(pom first, then gradle), the application config (yml first, then
properties), scan `src/main/java` for annotated sources, and derive the
component flags; every missing or unreadable piece just leaves its flags
false. -/
def checkIntegrationStatus (checkPath : Str) (t : DirTree) : IntegrationStatus :=
  let buildContent :=
    match readFileT t [sPomXml] with
    | some c => c
    | none => (readFileT t [sGradle]).getD []
  let hasJPA := containsSub sJpa buildContent
  let hasPostgreSQL := containsSub sPg buildContent
  let appConfig :=
    match readFileT t [sSrcSeg, sMainSeg, sResourcesSeg, sAppYml] with
    | some c => c
    | none => (readFileT t [sSrcSeg, sMainSeg, sResourcesSeg, sAppProps]).getD []
  let hasDataSourceConfig := containsSub sDatasource appConfig && containsSub sPg appConfig
  let javaFiles := probeJavaFiles checkPath t
  let hasEntities := javaFiles.any (fun f => containsSub sEntityM f.2)
  let hasRepositories :=
    javaFiles.any (fun f => containsSub sRepositoryM f.2 && containsSub sRepoSeg f.1)
  let hasServices := javaFiles.any (fun f => containsSub sService f.2)
  let hasControllers := javaFiles.any (fun f => containsSub sRestController f.2)
  { configured := hasJPA && hasPostgreSQL && hasDataSourceConfig
    dependencies := hasJPA && hasPostgreSQL
    configuration := hasDataSourceConfig
    entities := hasEntities
    repositories := hasRepositories
    services := hasServices
    controllers := hasControllers }

/-- Stated from the spec's words, for comparison with the code's string-prefix
check: a resolved path lies under the project root when it equals the root or
extends it past a path separator. -/
def specUnderRoot (root p : Str) : Prop := p = root ∨ (root ++ ['/']).isPrefixOf p

instance (root p : Str) : Decidable (specUnderRoot root p) := by
  unfold specUnderRoot; infer_instance

/-! ### Helper classifiers and result projections -/

/-- Is an event a backup copy? -/
def isBackupEv : FsEvent → Bool
  | .backup _ _ => true
  | _ => false

/-- Is an event a mutating write (`writeFile` or `appendFile`)? -/
def isMutEv : FsEvent → Bool
  | .write _ _ => true
  | .append _ _ => true
  | _ => false

/-- The `appliedCount` of a successful apply call. -/
def resCount : Except Str (ApplyResult × FS × List FsEvent) → Option Nat
  | .ok r => some r.1.count
  | .error _ => none

/-- The `errors` list of a successful apply call. -/
def resErrors : Except Str (ApplyResult × FS × List FsEvent) → Option (List Str)
  | .ok r => some r.1.errors
  | .error _ => none

/-- Read a path in the file system left by a successful apply call. -/
def resRead : Except Str (ApplyResult × FS × List FsEvent) → Str → Option Str
  | .ok r, p => r.2.1.read p
  | .error _, _ => none

/-- Two JS dates lying in the same calendar second (they may still differ in
the millisecond field that `toISOString` also renders). -/
def sameSecondDates (d e : JsDate) : Prop :=
  d.year = e.year ∧ d.month = e.month ∧ d.day = e.day ∧ d.hour = e.hour ∧
  d.minute = e.minute ∧ d.second = e.second

instance (d e : JsDate) : Decidable (sameSecondDates d e) := by
  unfold sameSecondDates; infer_instance

/-! ### Concrete scenario data used by counterexamples and witnesses -/

/-- A concrete project root. -/
def exRoot : Str := "/home/user/proj".toList

/-- The default backup directory name. -/
def exBackupDir : Str := ".mcp-backups".toList

/-- A fixed instant. -/
def exDateA : JsDate := ⟨2026, 10, 11, 12, 0, 0, 0⟩

/-- A clock frozen at `exDateA`. -/
def exClockConst : Nat → JsDate := fun _ => exDateA

/-- A clock advancing one millisecond per sample inside the same second. -/
def exClockMs : Nat → JsDate := fun t => ⟨2026, 10, 11, 12, 0, 0, t⟩

/-- Engine configuration with backups on and a frozen clock. -/
def exCtx : Ctx := ⟨exRoot, true, true, exBackupDir, exClockConst⟩

/-- Engine configuration with backups on and the millisecond clock. -/
def exCtxMs : Ctx := ⟨exRoot, true, true, exBackupDir, exClockMs⟩

/-- A category name. -/
def exCatName : Str := "entities".toList

/-- Sibling-escape descriptor path for the containment claim. -/
def c1path : Str := "../proj2/x.txt".toList

/-- Its content. -/
def c1hi : Str := "hi".toList

/-- Where the sibling-escape path actually lands: outside the project root. -/
def c1outside : Str := "/home/user/proj2/x.txt".toList

/-- The sibling-escape descriptor. -/
def c1desc : FileDesc := ⟨c1path, aCreate, some c1hi, none⟩

/-- File system containing just the project root. -/
def c1fs : FS := ⟨[exRoot], [], []⟩

/-- The apply call on the sibling-escape descriptor. -/
def c1apply : Except Str (ApplyResult × FS × List FsEvent) :=
  applyGeneratedFiles exCtx c1fs [⟨exCatName, [c1desc]⟩]

/-- A dot-dot path whose resolution does not share the root's string prefix. -/
def w1path : Str := "../../etc/passwd".toList

/-- Descriptor for the rejected dot-dot escape. -/
def w1desc : FileDesc := ⟨w1path, aCreate, some c1hi, none⟩

/-- Initial state over `c1fs`. -/
def w1st : St := ⟨c1fs, 0, 0, [], []⟩

/-- A relative Java target path. -/
def c4path : Str := "a/User.java".toList

/-- Empty (falsy) content of a descriptor. -/
def c4content : Option Str := some []

/-- Prior bytes of the target. -/
def c4old : Str := "old".toList

/-- The resolved target. -/
def c4full : Str := posixResolve exRoot c4path

/-- File system with the target present. -/
def c4fs : FS := ⟨[exRoot], [(c4full, c4old)], []⟩

/-- Initial state over `c4fs`. -/
def c4st : St := ⟨c4fs, 0, 0, [], []⟩

/-- Empty-content `modify` descriptor on an existing target. -/
def c4desc : FileDesc := ⟨c4path, aModify, c4content, none⟩

/-- Its per-file processing result. -/
def c4res : St × List FsEvent := processFile exCtx c4st c4desc

/-- First relative path sharing the basename `User.java`. -/
def c10rel1 : Str := "a/User.java".toList

/-- Second relative path sharing the basename `User.java`. -/
def c10rel2 : Str := "b/User.java".toList

/-- First resolved target. -/
def c10full1 : Str := posixResolve exRoot c10rel1

/-- Second resolved target. -/
def c10full2 : Str := posixResolve exRoot c10rel2

/-- Prior bytes of the first target. -/
def c10old1 : Str := "one".toList

/-- Prior bytes of the second target. -/
def c10old2 : Str := "two".toList

/-- New content written over both targets. -/
def c10new : Str := "new".toList

/-- File system with both targets present. -/
def c10fs : FS := ⟨[exRoot], [(c10full1, c10old1), (c10full2, c10old2)], []⟩

/-- Initial state over `c10fs`. -/
def c10st : St := ⟨c10fs, 0, 0, [], []⟩

/-- First `modify` descriptor. -/
def c10d1 : FileDesc := ⟨c10rel1, aModify, some c10new, some stReplace⟩

/-- Second `modify` descriptor. -/
def c10d2 : FileDesc := ⟨c10rel2, aModify, some c10new, some stReplace⟩

/-- One apply call over both descriptors under the millisecond clock. -/
def c10apply : Except Str (ApplyResult × FS × List FsEvent) :=
  applyGeneratedFiles exCtxMs c10fs [⟨exCatName, [c10d1, c10d2]⟩]

/-- Backup destination of the first descriptor (tick 0). -/
def c10dst0 : Str := backupDest exCtxMs c10rel1 (exClockMs 0)

/-- Backup destination of the second descriptor (tick 1). -/
def c10dst1 : Str := backupDest exCtxMs c10rel2 (exClockMs 1)

/-- The method section spliced before the closing brace by `mergeJavaFile`. -/
def methodSection (newContent : Str) : Str :=
  if (extractJavaMethods newContent).isEmpty then []
  else sMethodsComment ++ List.intercalate nlnl (extractJavaMethods newContent)

/-- The path-correction example path of the heuristic claim. -/
def c6path : Str := "src/main/java/com/example/test_service/entity/User.java".toList

/-- Its expected corrected path. -/
def c6expPath : Str := "src/main/java/com/example/entity/User.java".toList

/-- A content with several `com.example.test_service.` occurrences. -/
def c6content : Str := "package com.example.test_service.entity;\nimport com.example.test_service.repository.UserRepository;\nprivate com.example.test_service.entity.User u;\nclass User \x7b\x7d".toList

/-- The expected rewritten content. -/
def c6expContent : Str := "package com.example.entity;\nimport com.example.repository.UserRepository;\nprivate com.example.entity.User u;\nclass User \x7b\x7d".toList

/-- A path whose middle segment is capitalized and has no underscore. -/
def c6sharedPath : Str := "src/main/java/com/example/Shared/entity/User.java".toList

/-- Base of the `Shared` path as split by the correction regex. -/
def c6sharedBase : Str := "src/main/java/com/example/".toList

/-- Middle segment of the `Shared` path. -/
def c6sharedMid : Str := "Shared".toList

/-- Rest of the `Shared` path. -/
def c6sharedRest : Str := "entity/User.java".toList

/-- A fresh path absent from the scenario file systems. -/
def c3freshPath : Str := "fresh.txt".toList

/-- A `create` descriptor on the fresh path. -/
def c3createDesc : FileDesc := ⟨c3freshPath, aCreate, some c1hi, none⟩

/-- A `modify` descriptor with `replace` strategy on the first shared-basename
target. -/
def c3desc : FileDesc := ⟨c10rel1, aModify, some c10new, some stReplace⟩

/-- A descriptor path whose parent directory is unwritable. -/
def c2bad : Str := "bad/x.txt".toList

/-- An ordinary writable descriptor path. -/
def c2ok : Str := "ok.txt".toList

/-- Failing descriptor of the error-isolation scenario. -/
def c2descBad : FileDesc := ⟨c2bad, aCreate, some c1hi, none⟩

/-- Succeeding descriptor of the error-isolation scenario. -/
def c2descOk : FileDesc := ⟨c2ok, aCreate, some c1hi, none⟩

/-- File system in which exactly the bad descriptor's directory is
unwritable. -/
def c2fs : FS := ⟨[exRoot], [], [dirnameStr (posixResolve exRoot c2bad)]⟩

/-- The two-descriptor batch with exactly one unwritable target. -/
def c2cats : List FileCategory := [⟨exCatName, [c2descBad, c2descOk]⟩]

/-- A `modify` descriptor whose target is absent (treated as create). -/
def w7desc : FileDesc := ⟨c4path, aModify, some c1hi, none⟩

/-- A `modify` descriptor with explicit `replace` strategy on the existing
`c4full` target. -/
def w7desc2 : FileDesc := ⟨c4path, aModify, some c1hi, some stReplace⟩

/-- Package name of the Java-merge witness file. -/
def c8nm : Str := "com.a".toList

/-- Class body (after the package declaration, before the closing brace) of
the witness file. -/
def c8bprime : Str := "\nimport x.y;\n@Service\nclass C \x7b\n".toList

/-- Closing-brace group of the witness file. -/
def c8cl : Str := "\x7d".toList

/-- The witness existing Java file. -/
def c8e : Str := "package com.a;\nimport x.y;\n@Service\nclass C \x7b\n\x7d".toList

/-- The witness new content (imports only). -/
def c8n : Str := "import x.y;\nimport z.w;\n".toList

/-- An existing file with no controller/service marker (fallback case). -/
def c8fallbackE : Str := "class D \x7b\x7d".toList

/-- An empty but readable project directory. -/
def c9tree0 : DirTree := .dir true []

/-- Path prefix used by the probe witnesses. -/
def c9pathPfx : Str := "/p".toList

/-- Name of an unreadable subdirectory. -/
def c9lockedName : Str := "locked".toList

/-- A Java file name inside the unreadable subdirectory. -/
def c9javaName : Str := "A.java".toList

/-- Marker-bearing content hidden in the unreadable subdirectory. -/
def c9secret : Str := "@Entity class A".toList

/-- A readable sibling entry. -/
def c9okName : Str := "B.java".toList

/-- Content of the readable sibling. -/
def c9okContent : Str := "class B \x7b\x7d".toList


/-! ## Shared lemmas -/

/-- Reading after a write: the new pair shadows, other paths are unchanged. -/
theorem FS.read_write (fs : FS) (p c q : Str) :
    (fs.write p c).read q = if q = p then some c else fs.read q := by
  simp only [FS.write, FS.read, List.lookup]
  by_cases h : q = p
  · simp [h]
  · have hb : (q == p) = false := beq_eq_false_iff_ne.mpr h
    simp [h, hb]

/-- `createBackup` never touches the applied-files counter. -/
theorem createBackupM_filesApplied (ctx : Ctx) (st : St) (f r : Str) :
    (createBackupM ctx st f r).1.filesApplied = st.filesApplied := by
  unfold createBackupM
  cases h : st.fs.read f <;> simp

/-- `createBackup` never touches the error list. -/
theorem createBackupM_errors (ctx : Ctx) (st : St) (f r : Str) :
    (createBackupM ctx st f r).1.errors = st.errors := by
  unfold createBackupM
  cases h : st.fs.read f <;> simp

/-- `createBackup` never touches the applied-paths list. -/
theorem createBackupM_appliedFiles (ctx : Ctx) (st : St) (f r : Str) :
    (createBackupM ctx st f r).1.appliedFiles = st.appliedFiles := by
  unfold createBackupM
  cases h : st.fs.read f <;> simp

/-- `createBackup` never changes which directories are unwritable. -/
theorem createBackupM_unwritableDirs (ctx : Ctx) (st : St) (f r : Str) :
    (createBackupM ctx st f r).1.fs.unwritableDirs = st.fs.unwritableDirs := by
  unfold createBackupM
  cases h : st.fs.read f <;> simp [FS.write]

/-- `createBackup` never changes the directory set. -/
theorem createBackupM_dirs (ctx : Ctx) (st : St) (f r : Str) :
    (createBackupM ctx st f r).1.fs.dirs = st.fs.dirs := by
  unfold createBackupM
  cases h : st.fs.read f <;> simp [FS.write]

/-- `createBackup` leaves the backed-up target's bytes unchanged (the copy
lands at the backup destination; if that destination happens to be the target
itself, the copied bytes are the target's own bytes). -/
theorem createBackupM_read_self (ctx : Ctx) (st : St) (f r : Str) :
    (createBackupM ctx st f r).1.fs.read f = st.fs.read f := by
  cases h : st.fs.read f with
  | none => simp [createBackupM, h]
  | some bytes =>
    simp only [createBackupM, h]
    simp only [FS.read_write]
    split <;> simp [h]

/-- On a missing target, `createBackup` is a no-op with no events. -/
theorem createBackupM_none (ctx : Ctx) (st : St) (f r : Str)
    (h : st.fs.read f = none) : createBackupM ctx st f r = (st, []) := by
  simp [createBackupM, h]

/-- On an existing target, `createBackup` copies the current bytes to the
timestamped destination and emits exactly one backup event. -/
theorem createBackupM_some (ctx : Ctx) (st : St) (f r bytes : Str)
    (h : st.fs.read f = some bytes) :
    createBackupM ctx st f r =
      ({ st with fs := st.fs.write (backupDest ctx r (ctx.clock st.tick)) bytes,
                 tick := st.tick + 1 },
       [.backup (backupDest ctx r (ctx.clock st.tick)) bytes]) := by
  simp [createBackupM, h]

/-! ## Branch lemmas for `processFile` -/

/-- Security branch: when the normalized resolved target does not carry the
normalized project root as a string prefix, the file is rejected — an error is
recorded, and the state is otherwise untouched (no write, no count). -/
theorem processFile_security (ctx : Ctx) (st : St) (file : FileDesc) (cp : Str) (cc : Option Str)
    (hpc : pathCorrect ctx.removeProjectNameFromPath file.path file.content = (cp, cc))
    (hsec : ¬ ((posixNormalize ctx.projectRoot).isPrefixOf
        (posixNormalize (posixResolve ctx.projectRoot cp)) = true)) :
    processFile ctx st file =
      ({ st with errors := st.errors ++
          [failMsg file.path (eSecurityPre ++ cp ++ eSecurityPost)] },
       [.error (failMsg file.path (eSecurityPre ++ cp ++ eSecurityPost))]) := by
  simp only [processFile, hpc]
  rw [if_pos hsec]

/-- Unwritable-directory branch: the file fails with an error and the state
is otherwise untouched. -/
theorem processFile_dirUnwritable (ctx : Ctx) (st : St) (file : FileDesc) (cp : Str)
    (cc : Option Str)
    (hpc : pathCorrect ctx.removeProjectNameFromPath file.path file.content = (cp, cc))
    (hsec : (posixNormalize ctx.projectRoot).isPrefixOf
        (posixNormalize (posixResolve ctx.projectRoot cp)) = true)
    (hdir : dirnameStr (posixResolve ctx.projectRoot cp) ∈ st.fs.unwritableDirs) :
    processFile ctx st file =
      ({ st with errors := st.errors ++
          [failMsg file.path (eDirNotWritable ++ dirnameStr (posixResolve ctx.projectRoot cp))] },
       [.error (failMsg file.path
          (eDirNotWritable ++ dirnameStr (posixResolve ctx.projectRoot cp)))]) := by
  simp only [processFile, hpc]
  rw [if_neg (by simp [hsec]), if_pos hdir]

/-- Unknown-action branch: the file is skipped without count or error. -/
theorem processFile_skipAction (ctx : Ctx) (st : St) (file : FileDesc) (cp : Str)
    (cc : Option Str)
    (hpc : pathCorrect ctx.removeProjectNameFromPath file.path file.content = (cp, cc))
    (hsec : (posixNormalize ctx.projectRoot).isPrefixOf
        (posixNormalize (posixResolve ctx.projectRoot cp)) = true)
    (hdir : dirnameStr (posixResolve ctx.projectRoot cp) ∉ st.fs.unwritableDirs)
    (hact : ¬ (file.action = aCreate ∨ file.action = aModify ∨ file.action = aAppend)) :
    processFile ctx st file = (st, [.skipAction cp]) := by
  simp only [processFile, hpc]
  rw [if_neg (by simp [hsec]), if_neg hdir, if_neg hact]

/-- Empty-content branch: the backup step has already run, then the file is
skipped — no write, no count, no error. -/
theorem processFile_skipEmpty (ctx : Ctx) (st : St) (file : FileDesc) (cp : Str)
    (cc : Option Str)
    (hpc : pathCorrect ctx.removeProjectNameFromPath file.path file.content = (cp, cc))
    (hsec : (posixNormalize ctx.projectRoot).isPrefixOf
        (posixNormalize (posixResolve ctx.projectRoot cp)) = true)
    (hdir : dirnameStr (posixResolve ctx.projectRoot cp) ∉ st.fs.unwritableDirs)
    (hact : file.action = aCreate ∨ file.action = aModify ∨ file.action = aAppend)
    (hcc : truthy cc = false) :
    processFile ctx st file =
      ((if ctx.autoBackup then createBackupM ctx st (posixResolve ctx.projectRoot cp) cp
        else (st, [])).1,
       (if ctx.autoBackup then createBackupM ctx st (posixResolve ctx.projectRoot cp) cp
        else (st, [])).2 ++ [.skipEmpty cp]) := by
  simp only [processFile, hpc]
  rw [if_neg (by simp [hsec]), if_neg hdir, if_pos hact, if_neg (by simp [hcc])]

/-- `create` branch: backup step, then unconditional write of the content. -/
theorem processFile_create (ctx : Ctx) (st : St) (file : FileDesc) (cp : Str) (c : Str)
    (hpc : pathCorrect ctx.removeProjectNameFromPath file.path file.content = (cp, some c))
    (hsec : (posixNormalize ctx.projectRoot).isPrefixOf
        (posixNormalize (posixResolve ctx.projectRoot cp)) = true)
    (hdir : dirnameStr (posixResolve ctx.projectRoot cp) ∉ st.fs.unwritableDirs)
    (hact : file.action = aCreate)
    (hc : c ≠ []) :
    processFile ctx st file =
      (finishApplied
        (if ctx.autoBackup then createBackupM ctx st (posixResolve ctx.projectRoot cp) cp
         else (st, [])).1
        (posixResolve ctx.projectRoot cp) c cp,
       (if ctx.autoBackup then createBackupM ctx st (posixResolve ctx.projectRoot cp) cp
        else (st, [])).2 ++ [.write (posixResolve ctx.projectRoot cp) c]) := by
  have htr : truthy (some c) = true := by
    cases c with
    | nil => exact absurd rfl hc
    | cons a l => rfl
  simp only [processFile, hpc]
  rw [if_neg (by simp [hsec]), if_neg hdir,
      if_pos (Or.inl hact), if_pos htr, if_pos hact]
  simp

/-- `append` branch: backup step, then the content is appended to the file
(created when absent). -/
theorem processFile_append (ctx : Ctx) (st : St) (file : FileDesc) (cp : Str) (c : Str)
    (hpc : pathCorrect ctx.removeProjectNameFromPath file.path file.content = (cp, some c))
    (hsec : (posixNormalize ctx.projectRoot).isPrefixOf
        (posixNormalize (posixResolve ctx.projectRoot cp)) = true)
    (hdir : dirnameStr (posixResolve ctx.projectRoot cp) ∉ st.fs.unwritableDirs)
    (hact : file.action = aAppend)
    (hc : c ≠ []) :
    processFile ctx st file =
      (finishApplied
        (if ctx.autoBackup then createBackupM ctx st (posixResolve ctx.projectRoot cp) cp
         else (st, [])).1
        (posixResolve ctx.projectRoot cp)
        (((if ctx.autoBackup then createBackupM ctx st (posixResolve ctx.projectRoot cp) cp
           else (st, [])).1.fs.read (posixResolve ctx.projectRoot cp)).getD [] ++ c) cp,
       (if ctx.autoBackup then createBackupM ctx st (posixResolve ctx.projectRoot cp) cp
        else (st, [])).2 ++ [.append (posixResolve ctx.projectRoot cp) c]) := by
  have htr : truthy (some c) = true := by
    cases c with
    | nil => exact absurd rfl hc
    | cons a l => rfl
  simp only [processFile, hpc]
  rw [if_neg (by simp [hsec]), if_neg hdir,
      if_pos (Or.inr (Or.inr hact)), if_pos htr,
      if_neg (by rw [hact]; decide), if_pos hact]
  simp

/-- `modify` branch on a missing target: treated as a create. -/
theorem processFile_modify_none (ctx : Ctx) (st : St) (file : FileDesc) (cp : Str) (c : Str)
    (hpc : pathCorrect ctx.removeProjectNameFromPath file.path file.content = (cp, some c))
    (hsec : (posixNormalize ctx.projectRoot).isPrefixOf
        (posixNormalize (posixResolve ctx.projectRoot cp)) = true)
    (hdir : dirnameStr (posixResolve ctx.projectRoot cp) ∉ st.fs.unwritableDirs)
    (hact : file.action = aModify)
    (hc : c ≠ [])
    (hread : st.fs.read (posixResolve ctx.projectRoot cp) = none) :
    processFile ctx st file =
      (finishApplied
        (if ctx.autoBackup then createBackupM ctx st (posixResolve ctx.projectRoot cp) cp
         else (st, [])).1
        (posixResolve ctx.projectRoot cp) c cp,
       (if ctx.autoBackup then createBackupM ctx st (posixResolve ctx.projectRoot cp) cp
        else (st, [])).2 ++ [.write (posixResolve ctx.projectRoot cp) c]) := by
  have htr : truthy (some c) = true := by
    cases c with
    | nil => exact absurd rfl hc
    | cons a l => rfl
  have hB : (if ctx.autoBackup then createBackupM ctx st (posixResolve ctx.projectRoot cp) cp
      else (st, [])).1.fs.read (posixResolve ctx.projectRoot cp) = none := by
    split
    · rw [createBackupM_read_self]; exact hread
    · exact hread
  simp only [processFile, hpc]
  rw [if_neg (by simp [hsec]), if_neg hdir,
      if_pos (Or.inr (Or.inl hact)), if_pos htr,
      if_neg (by rw [hact]; decide), if_neg (by rw [hact]; decide)]
  rw [hB]
  simp

/-- `modify` branch on an existing target: backup step, read, merge with the
descriptor's strategy (default `smart`), write the merged result. -/
theorem processFile_modify_some (ctx : Ctx) (st : St) (file : FileDesc) (cp : Str) (c ex : Str)
    (hpc : pathCorrect ctx.removeProjectNameFromPath file.path file.content = (cp, some c))
    (hsec : (posixNormalize ctx.projectRoot).isPrefixOf
        (posixNormalize (posixResolve ctx.projectRoot cp)) = true)
    (hdir : dirnameStr (posixResolve ctx.projectRoot cp) ∉ st.fs.unwritableDirs)
    (hact : file.action = aModify)
    (hc : c ≠ [])
    (hread : st.fs.read (posixResolve ctx.projectRoot cp) = some ex) :
    processFile ctx st file =
      (finishApplied
        (if ctx.autoBackup then createBackupM ctx st (posixResolve ctx.projectRoot cp) cp
         else (st, [])).1
        (posixResolve ctx.projectRoot cp)
        (mergeFileContent ex c cp (file.mergeStrategy.getD stSmart)) cp,
       (if ctx.autoBackup then createBackupM ctx st (posixResolve ctx.projectRoot cp) cp
        else (st, [])).2 ++
          [.write (posixResolve ctx.projectRoot cp)
            (mergeFileContent ex c cp (file.mergeStrategy.getD stSmart))]) := by
  have htr : truthy (some c) = true := by
    cases c with
    | nil => exact absurd rfl hc
    | cons a l => rfl
  have hB : (if ctx.autoBackup then createBackupM ctx st (posixResolve ctx.projectRoot cp) cp
      else (st, [])).1.fs.read (posixResolve ctx.projectRoot cp) = some ex := by
    split
    · rw [createBackupM_read_self]; exact hread
    · exact hread
  simp only [processFile, hpc]
  rw [if_neg (by simp [hsec]), if_neg hdir,
      if_pos (Or.inr (Or.inl hact)), if_pos htr,
      if_neg (by rw [hact]; decide), if_neg (by rw [hact]; decide)]
  rw [hB]
  simp

set_option maxRecDepth 100000

/-! ## Claim theorems -/

/-- C1 (counterexample): a descriptor path `../proj2/x.txt` resolves to
`/home/user/proj2/x.txt`, which does not lie under the project root
`/home/user/proj`; yet, because that string extends the root as a raw string
prefix, the apply call records no error, counts the file as applied, and
writes it outside the root. -/
theorem C1_counterexample :
    posixResolve exRoot c1path = c1outside ∧
    ¬ specUnderRoot exRoot c1outside ∧
    resRead c1apply c1outside = some c1hi ∧
    resErrors c1apply = some [] ∧
    resCount c1apply = some 1 := by
  decide

/-- C1 (amended): for every apply call and descriptor, when the corrected
path's normalized resolution against the project root does not start with the
normalized project root as a string prefix, the file is rejected for that
file only: the error is appended for it, and no write, count, or path record
occurs (the state is otherwise unchanged). -/
theorem C1_security_containment (ctx : Ctx) (st : St) (file : FileDesc) (cp : Str)
    (cc : Option Str)
    (hpc : pathCorrect ctx.removeProjectNameFromPath file.path file.content = (cp, cc))
    (hsec : ¬ ((posixNormalize ctx.projectRoot).isPrefixOf
        (posixNormalize (posixResolve ctx.projectRoot cp)) = true)) :
    processFile ctx st file =
      ({ st with errors := st.errors ++
          [failMsg file.path (eSecurityPre ++ cp ++ eSecurityPost)] },
       [.error (failMsg file.path (eSecurityPre ++ cp ++ eSecurityPost))]) :=
  processFile_security ctx st file cp cc hpc hsec

/-- Witness for C1: the dot-dot escape `../../etc/passwd` is rejected with an
error and no state change. -/
theorem C1_security_containment_witness :
    processFile exCtx w1st w1desc =
      ({ w1st with errors := w1st.errors ++
          [failMsg w1path (eSecurityPre ++ w1path ++ eSecurityPost)] },
       [.error (failMsg w1path (eSecurityPre ++ w1path ++ eSecurityPost))]) :=
  C1_security_containment exCtx w1st w1desc w1path (some c1hi) (by decide) (by decide)

/-- C4 (counterexample): an empty-content `modify` descriptor on an existing
target with backups enabled produces exactly one backup and is then skipped —
the backup step precedes the empty-content check, contradicting the claimed
order; no write occurs, and the file is counted neither in `appliedCount` nor
in `errors`. -/
theorem C4_counterexample :
    (c4res.2.filter isBackupEv).length = 1 ∧
    c4res.2.filter isMutEv = [] ∧
    c4res.1.filesApplied = 0 ∧
    c4res.1.errors = [] ∧
    c4res.1.fs.read c4full = some c4old := by
  decide

/-- C4 (amended): for every descriptor with empty or absent corrected
content (and a path passing the security and writability checks), the file is
skipped with no write, no count and no error — but the backup step runs
before the skip, so exactly one backup is created when the target exists and
backups are enabled (zero otherwise), and the target's bytes are unchanged. -/
theorem C4_backup_precedes_empty_skip (ctx : Ctx) (st : St) (file : FileDesc) (cp : Str)
    (cc : Option Str)
    (hpc : pathCorrect ctx.removeProjectNameFromPath file.path file.content = (cp, cc))
    (hcc : truthy cc = false)
    (hsec : (posixNormalize ctx.projectRoot).isPrefixOf
        (posixNormalize (posixResolve ctx.projectRoot cp)) = true)
    (hdir : dirnameStr (posixResolve ctx.projectRoot cp) ∉ st.fs.unwritableDirs)
    (hact : file.action = aCreate ∨ file.action = aModify ∨ file.action = aAppend) :
    (processFile ctx st file).1.filesApplied = st.filesApplied ∧
    (processFile ctx st file).1.errors = st.errors ∧
    (processFile ctx st file).2.filter isMutEv = [] ∧
    ((processFile ctx st file).2.filter isBackupEv).length =
      (if ctx.autoBackup = true ∧ (st.fs.read (posixResolve ctx.projectRoot cp)).isSome = true
       then 1 else 0) ∧
    (processFile ctx st file).1.fs.read (posixResolve ctx.projectRoot cp) =
      st.fs.read (posixResolve ctx.projectRoot cp) := by
  rw [processFile_skipEmpty ctx st file cp cc hpc hsec hdir hact hcc]
  by_cases hab : ctx.autoBackup = true
  · cases hread : st.fs.read (posixResolve ctx.projectRoot cp) with
    | none =>
      rw [if_pos hab] at *
      simp [createBackupM_none ctx st _ cp hread, isMutEv, isBackupEv, hab, hread]
    | some bytes =>
      rw [if_pos hab]
      rw [createBackupM_some ctx st _ cp bytes hread]
      refine ⟨rfl, rfl, by simp [isMutEv, isBackupEv], ?_, ?_⟩
      · simp [isBackupEv, isMutEv, hab, hread]
      · simp only [FS.read_write]
        split <;> simp [hread]
  · rw [if_neg hab]
    simp [isMutEv, isBackupEv, hab]

/-- Witness for C4 (amended): the concrete empty-content scenario
instantiates the amended property. -/
theorem C4_backup_precedes_empty_skip_witness :
    (processFile exCtx c4st c4desc).1.filesApplied = c4st.filesApplied ∧
    (processFile exCtx c4st c4desc).1.errors = c4st.errors ∧
    (processFile exCtx c4st c4desc).2.filter isMutEv = [] ∧
    ((processFile exCtx c4st c4desc).2.filter isBackupEv).length =
      (if exCtx.autoBackup = true ∧ (c4st.fs.read (posixResolve exCtx.projectRoot c4path)).isSome = true
       then 1 else 0) ∧
    (processFile exCtx c4st c4desc).1.fs.read (posixResolve exCtx.projectRoot c4path) =
      c4st.fs.read (posixResolve exCtx.projectRoot c4path) :=
  C4_backup_precedes_empty_skip exCtx c4st c4desc c4path c4content
    (by decide) (by decide) (by decide) (by decide) (by decide)

/-- C5: the `replace` strategy returns the new content verbatim for every
pair of contents and every path, hence applying the same replace merge twice
yields the same final content both times. -/
theorem C5_replace_idempotent (e n p : Str) :
    mergeFileContent e n p stReplace = n ∧
    mergeFileContent (mergeFileContent e n p stReplace) n p stReplace =
      mergeFileContent e n p stReplace := by
  have h : ∀ e' : Str, mergeFileContent e' n p stReplace = n := by
    intro e'
    rw [mergeFileContent]
    rw [if_neg (show ¬(stReplace = stAppend) by decide)]
    rw [if_pos rfl]
  exact ⟨h e, by rw [h e]; exact h n⟩

/-- C6: with project-name removal enabled, the descriptor path
`src/main/java/com/example/test_service/entity/User.java` is corrected to
`src/main/java/com/example/entity/User.java` and every occurrence of
`com.example.test_service.` in the content is rewritten to `com.example.`;
for the capitalized, underscore-free middle segment `Shared`, correction does
not trigger and path and content are returned unchanged for every content. -/
theorem C6_path_correction_heuristic :
    pathCorrect true c6path (some c6content) = (c6expPath, some c6expContent) ∧
    ∀ content : Option Str, pathCorrect true c6sharedPath content = (c6sharedPath, content) := by
  constructor
  · decide
  · intro content
    have hl : lastViableComEx c6sharedPath = some (c6sharedBase, c6sharedMid, c6sharedRest) := by
      decide
    simp only [pathCorrect]
    rw [if_pos (by decide)]
    simp only [hl]
    rw [if_neg (by decide)]

/-- C10 (counterexample): under the millisecond-precision clock, two
descriptors sharing the basename `User.java`, backed up in the same calendar
second but in different milliseconds within one apply call, land at two
distinct backup paths — the earlier backup is not overwritten and both
backups coexist, refuting the claimed second-granularity collision. -/
theorem C10_counterexample :
    sameSecondDates (exClockMs 0) (exClockMs 1) ∧
    basenameStr c10rel1 = basenameStr c10rel2 ∧
    c10rel1 ≠ c10rel2 ∧
    c10dst0 ≠ c10dst1 ∧
    resRead c10apply c10dst0 = some c10old1 ∧
    resRead c10apply c10dst1 = some c10old2 ∧
    resErrors c10apply = some [] := by
  decide

/-- C10 (amended): the backup destination is determined solely by the project
root, the backup directory, the basename of the relative path and the sampled
timestamp (which has millisecond precision); two consecutive backups of
distinct targets sharing a basename whose clock samples coincide (same
millisecond) resolve to the same backup path, and the later copy overwrites
the earlier backup. -/
theorem C10_backup_path_collision :
    (∀ (ctx : Ctx) (rel1 rel2 : Str) (d : JsDate), basenameStr rel1 = basenameStr rel2 →
      backupDest ctx rel1 d = backupDest ctx rel2 d) ∧
    (∀ (ctx : Ctx) (st : St) (full1 rel1 full2 rel2 bytes1 bytes2 : Str),
      st.fs.read full1 = some bytes1 →
      st.fs.read full2 = some bytes2 →
      ctx.clock (st.tick + 1) = ctx.clock st.tick →
      basenameStr rel1 = basenameStr rel2 →
      backupDest ctx rel1 (ctx.clock st.tick) ≠ full2 →
      (createBackupM ctx (createBackupM ctx st full1 rel1).1 full2 rel2).1.fs.read
        (backupDest ctx rel1 (ctx.clock st.tick)) = some bytes2) := by
  constructor
  · intro ctx rel1 rel2 d h
    unfold backupDest
    rw [h]
  · intro ctx st full1 rel1 full2 rel2 bytes1 bytes2 h1 h2 hclk hbn hne
    rw [createBackupM_some ctx st full1 rel1 bytes1 h1]
    have h2' : (FS.write st.fs (backupDest ctx rel1 (ctx.clock st.tick)) bytes1).read full2 =
        some bytes2 := by
      rw [FS.read_write]
      rw [if_neg (fun hh => hne hh.symm)]
      exact h2
    rw [createBackupM_some ctx _ full2 rel2 bytes2 h2']
    simp only [FS.read_write]
    rw [hclk]
    rw [show backupDest ctx rel2 (ctx.clock st.tick) = backupDest ctx rel1 (ctx.clock st.tick) from
      by unfold backupDest; rw [hbn]]
    rw [if_pos rfl]

/-- Witness for C10 (amended): with a frozen clock, the two shared-basename
backups collide and the later bytes win. -/
theorem C10_backup_path_collision_witness :
    backupDest exCtx c10rel1 exDateA = backupDest exCtx c10rel2 exDateA ∧
    (createBackupM exCtx (createBackupM exCtx c10st c10full1 c10rel1).1 c10full2 c10rel2).1.fs.read
      (backupDest exCtx c10rel1 (exCtx.clock c10st.tick)) = some c10old2 :=
  ⟨C10_backup_path_collision.1 exCtx c10rel1 c10rel2 exDateA (by decide),
   C10_backup_path_collision.2 exCtx c10st c10full1 c10rel1 c10full2 c10rel2 c10old1 c10old2
     (by decide) (by decide) (by decide) (by decide) (by decide)⟩

/-- C3: with backups enabled, a `modify` or `append` descriptor whose target
exists (and with non-empty content, so the mutating write happens) produces
the event trace `[backup of the prior bytes, one mutating write]` — exactly
one backup, created before the write, containing the target's prior bytes;
and a `create` descriptor whose target does not exist produces no backup
event at all. -/
theorem C3_backup_before_mutate :
    (∀ (ctx : Ctx) (st : St) (file : FileDesc) (cp : Str) (c ex : Str),
      pathCorrect ctx.removeProjectNameFromPath file.path file.content = (cp, some c) →
      ctx.autoBackup = true →
      file.action = aModify ∨ file.action = aAppend →
      (posixNormalize ctx.projectRoot).isPrefixOf
        (posixNormalize (posixResolve ctx.projectRoot cp)) = true →
      dirnameStr (posixResolve ctx.projectRoot cp) ∉ st.fs.unwritableDirs →
      c ≠ [] →
      st.fs.read (posixResolve ctx.projectRoot cp) = some ex →
      ∃ mv, (processFile ctx st file).2 =
          [.backup (backupDest ctx cp (ctx.clock st.tick)) ex, mv] ∧ isMutEv mv = true) ∧
    (∀ (ctx : Ctx) (st : St) (file : FileDesc) (cp : Str) (cc : Option Str),
      pathCorrect ctx.removeProjectNameFromPath file.path file.content = (cp, cc) →
      file.action = aCreate →
      st.fs.read (posixResolve ctx.projectRoot cp) = none →
      (processFile ctx st file).2.filter isBackupEv = []) := by
  constructor
  · intro ctx st file cp c ex hpc hb hact hsec hdir hc hex
    cases hact with
    | inl hmod =>
      rw [processFile_modify_some ctx st file cp c ex hpc hsec hdir hmod hc hex]
      rw [if_pos hb, createBackupM_some ctx st _ cp ex hex]
      exact ⟨_, rfl, rfl⟩
    | inr happ =>
      rw [processFile_append ctx st file cp c hpc hsec hdir happ hc]
      rw [if_pos hb, createBackupM_some ctx st _ cp ex hex]
      exact ⟨_, rfl, rfl⟩
  · intro ctx st file cp cc hpc hact hread
    by_cases hsec : (posixNormalize ctx.projectRoot).isPrefixOf
        (posixNormalize (posixResolve ctx.projectRoot cp)) = true
    · by_cases hdir : dirnameStr (posixResolve ctx.projectRoot cp) ∈ st.fs.unwritableDirs
      · rw [processFile_dirUnwritable ctx st file cp cc hpc hsec hdir]
        simp [isBackupEv]
      · by_cases htr : truthy cc = true
        · obtain ⟨c, hcc, hc⟩ : ∃ c, cc = some c ∧ c ≠ [] := by
            cases cc with
            | none => simp [truthy] at htr
            | some c =>
              cases c with
              | nil => simp [truthy] at htr
              | cons a l => exact ⟨a :: l, rfl, by simp⟩
          subst hcc
          rw [processFile_create ctx st file cp c hpc hsec hdir hact hc]
          by_cases hab : ctx.autoBackup = true
          · rw [if_pos hab, createBackupM_none ctx st _ cp hread]
            simp [isBackupEv]
          · rw [if_neg hab]
            simp [isBackupEv]
        · rw [processFile_skipEmpty ctx st file cp cc hpc hsec hdir (Or.inl hact)
              (Bool.not_eq_true _ ▸ htr)]
          by_cases hab : ctx.autoBackup = true
          · rw [if_pos hab, createBackupM_none ctx st _ cp hread]
            simp [isBackupEv]
          · rw [if_neg hab]
            simp [isBackupEv]
    · rw [processFile_security ctx st file cp cc hpc hsec]
      simp [isBackupEv]

/-- Witness for C3: the concrete `modify` on an existing target yields
exactly `[backup, write]`, and the concrete `create` on a fresh target yields
no backup event. -/
theorem C3_backup_before_mutate_witness :
    (∃ mv, (processFile exCtx c10st c3desc).2 =
        [.backup (backupDest exCtx c10rel1 (exCtx.clock c10st.tick)) c10old1, mv] ∧
        isMutEv mv = true) ∧
    (processFile exCtx c10st c3createDesc).2.filter isBackupEv = [] :=
  ⟨C3_backup_before_mutate.1 exCtx c10st c3desc c10rel1 c10new c10old1 (by decide) (by decide)
      (Or.inl (by decide)) (by decide) (by decide) (by decide) (by decide),
   C3_backup_before_mutate.2 exCtx c10st c3createDesc c3freshPath (some c1hi)
      (by decide) (by decide) (by decide)⟩

/-- C7: a `modify` descriptor whose target does not exist is processed
exactly like the same descriptor with action `create` (same state change,
same events); and a `modify` descriptor whose target exists ends with the
target holding the merger's output on the existing bytes, the descriptor's
content, and its merge strategy defaulted to `smart`. -/
theorem C7_modify_semantics :
    (∀ (ctx : Ctx) (st : St) (file : FileDesc) (cp : Str) (cc : Option Str),
      pathCorrect ctx.removeProjectNameFromPath file.path file.content = (cp, cc) →
      file.action = aModify →
      st.fs.read (posixResolve ctx.projectRoot cp) = none →
      processFile ctx st file = processFile ctx st { file with action := aCreate }) ∧
    (∀ (ctx : Ctx) (st : St) (file : FileDesc) (cp : Str) (c ex : Str),
      pathCorrect ctx.removeProjectNameFromPath file.path file.content = (cp, some c) →
      file.action = aModify →
      (posixNormalize ctx.projectRoot).isPrefixOf
        (posixNormalize (posixResolve ctx.projectRoot cp)) = true →
      dirnameStr (posixResolve ctx.projectRoot cp) ∉ st.fs.unwritableDirs →
      c ≠ [] →
      st.fs.read (posixResolve ctx.projectRoot cp) = some ex →
      (processFile ctx st file).1.fs.read (posixResolve ctx.projectRoot cp) =
        some (mergeFileContent ex c cp (file.mergeStrategy.getD stSmart))) := by
  constructor
  · intro ctx st file cp cc hpc hmod hread
    have hpc' : pathCorrect ctx.removeProjectNameFromPath
        ({ file with action := aCreate } : FileDesc).path
        ({ file with action := aCreate } : FileDesc).content = (cp, cc) := hpc
    by_cases hsec : (posixNormalize ctx.projectRoot).isPrefixOf
        (posixNormalize (posixResolve ctx.projectRoot cp)) = true
    · by_cases hdir : dirnameStr (posixResolve ctx.projectRoot cp) ∈ st.fs.unwritableDirs
      · rw [processFile_dirUnwritable ctx st file cp cc hpc hsec hdir,
            processFile_dirUnwritable ctx st _ cp cc hpc' hsec hdir]
      · by_cases htr : truthy cc = true
        · obtain ⟨c, hcc, hc⟩ : ∃ c, cc = some c ∧ c ≠ [] := by
            cases cc with
            | none => simp [truthy] at htr
            | some c =>
              cases c with
              | nil => simp [truthy] at htr
              | cons a l => exact ⟨a :: l, rfl, by simp⟩
          subst hcc
          rw [processFile_modify_none ctx st file cp c hpc hsec hdir hmod hc hread,
              processFile_create ctx st _ cp c hpc' hsec hdir rfl hc]
        · rw [processFile_skipEmpty ctx st file cp cc hpc hsec hdir (Or.inr (Or.inl hmod))
              (Bool.not_eq_true _ ▸ htr),
              processFile_skipEmpty ctx st _ cp cc hpc' hsec hdir (Or.inl rfl)
              (Bool.not_eq_true _ ▸ htr)]
    · rw [processFile_security ctx st file cp cc hpc hsec,
          processFile_security ctx st _ cp cc hpc' hsec]
  · intro ctx st file cp c ex hpc hmod hsec hdir hc hread
    rw [processFile_modify_some ctx st file cp c ex hpc hsec hdir hmod hc hread]
    simp only [finishApplied, FS.read_write]
    simp

/-- Witness for C7: the concrete missing-target `modify` equals its `create`
twin, and the concrete existing-target `modify` ends with the merged
content. -/
theorem C7_modify_semantics_witness :
    processFile exCtx w1st w7desc = processFile exCtx w1st { w7desc with action := aCreate } ∧
    (processFile exCtx c4st w7desc2).1.fs.read (posixResolve exCtx.projectRoot c4path) =
      some (mergeFileContent c4old c1hi c4path (w7desc2.mergeStrategy.getD stSmart)) :=
  ⟨C7_modify_semantics.1 exCtx w1st w7desc c4path (some c1hi) (by decide) (by decide) (by decide),
   C7_modify_semantics.2 exCtx c4st w7desc2 c4path c1hi c4old (by decide) (by decide) (by decide)
     (by decide) (by decide) (by decide)⟩

/-- The optional backup step does not change the applied counter. -/
theorem backupStep_filesApplied (ctx : Ctx) (st : St) (f r : Str) :
    (if ctx.autoBackup then createBackupM ctx st f r else (st, [])).1.filesApplied =
      st.filesApplied := by
  split
  · exact createBackupM_filesApplied ctx st f r
  · rfl

/-- The optional backup step does not change the error list. -/
theorem backupStep_errors (ctx : Ctx) (st : St) (f r : Str) :
    (if ctx.autoBackup then createBackupM ctx st f r else (st, [])).1.errors = st.errors := by
  split
  · exact createBackupM_errors ctx st f r
  · rfl

/-- The optional backup step does not change the unwritable-directory set. -/
theorem backupStep_unwritableDirs (ctx : Ctx) (st : St) (f r : Str) :
    (if ctx.autoBackup then createBackupM ctx st f r else (st, [])).1.fs.unwritableDirs =
      st.fs.unwritableDirs := by
  split
  · exact createBackupM_unwritableDirs ctx st f r
  · rfl

/-- Per-file accounting: one processed descriptor adds one to `filesApplied`
exactly when its outcome is `applied`, appends one error exactly when its
outcome is `errored`, and never changes the unwritable-directory set. -/
theorem processFile_outcome (ctx : Ctx) (st : St) (file : FileDesc) :
    (processFile ctx st file).1.filesApplied =
      st.filesApplied +
        (if descOutcome ctx st.fs.unwritableDirs file = Outcome.applied then 1 else 0) ∧
    (processFile ctx st file).1.errors.length =
      st.errors.length +
        (if descOutcome ctx st.fs.unwritableDirs file = Outcome.errored then 1 else 0) ∧
    (processFile ctx st file).1.fs.unwritableDirs = st.fs.unwritableDirs := by
  rcases hE : pathCorrect ctx.removeProjectNameFromPath file.path file.content with ⟨cp, cc⟩
  by_cases hsec : (posixNormalize ctx.projectRoot).isPrefixOf
      (posixNormalize (posixResolve ctx.projectRoot cp)) = true
  · by_cases hdir : dirnameStr (posixResolve ctx.projectRoot cp) ∈ st.fs.unwritableDirs
    · have ho : descOutcome ctx st.fs.unwritableDirs file = Outcome.errored := by
        simp only [descOutcome, hE]
        rw [if_neg (by simp [hsec]), if_pos hdir]
      rw [processFile_dirUnwritable ctx st file cp cc hE hsec hdir, ho]
      simp
    · by_cases hact : file.action = aCreate ∨ file.action = aModify ∨ file.action = aAppend
      · by_cases htr : truthy cc = true
        · have ho : descOutcome ctx st.fs.unwritableDirs file = Outcome.applied := by
            simp only [descOutcome, hE]
            rw [if_neg (by simp [hsec]), if_neg hdir, if_pos hact, if_pos htr]
          obtain ⟨c, hcc, hc⟩ : ∃ c, cc = some c ∧ c ≠ [] := by
            cases cc with
            | none => simp [truthy] at htr
            | some c =>
              cases c with
              | nil => simp [truthy] at htr
              | cons a l => exact ⟨a :: l, rfl, by simp⟩
          subst hcc
          rw [ho]
          rcases hact with hact | hact | hact
          · rw [processFile_create ctx st file cp c hE hsec hdir hact hc]
            simp [finishApplied, FS.write, backupStep_filesApplied, backupStep_errors,
              backupStep_unwritableDirs]
          · cases hread : st.fs.read (posixResolve ctx.projectRoot cp) with
            | none =>
              rw [processFile_modify_none ctx st file cp c hE hsec hdir hact hc hread]
              simp [finishApplied, FS.write, backupStep_filesApplied, backupStep_errors,
                backupStep_unwritableDirs]
            | some ex =>
              rw [processFile_modify_some ctx st file cp c ex hE hsec hdir hact hc hread]
              simp [finishApplied, FS.write, backupStep_filesApplied, backupStep_errors,
                backupStep_unwritableDirs]
          · rw [processFile_append ctx st file cp c hE hsec hdir hact hc]
            simp [finishApplied, FS.write, backupStep_filesApplied, backupStep_errors,
              backupStep_unwritableDirs]
        · have ho : descOutcome ctx st.fs.unwritableDirs file = Outcome.skippedEmpty := by
            simp only [descOutcome, hE]
            rw [if_neg (by simp [hsec]), if_neg hdir, if_pos hact,
                if_neg (by simp [Bool.not_eq_true _ ▸ htr])]
          rw [processFile_skipEmpty ctx st file cp cc hE hsec hdir hact
              (Bool.not_eq_true _ ▸ htr), ho]
          simp [backupStep_filesApplied, backupStep_errors, backupStep_unwritableDirs]
      · have ho : descOutcome ctx st.fs.unwritableDirs file = Outcome.skippedAction := by
          simp only [descOutcome, hE]
          rw [if_neg (by simp [hsec]), if_neg hdir, if_neg hact]
        rw [processFile_skipAction ctx st file cp cc hE hsec hdir hact, ho]
        simp
  · have ho : descOutcome ctx st.fs.unwritableDirs file = Outcome.errored := by
      simp only [descOutcome, hE]
      rw [if_pos hsec]
    rw [processFile_security ctx st file cp cc hE hsec, ho]
    simp

/-- Folding the per-file loop over a descriptor list adds one applied count
per `applied` outcome and one error per `errored` outcome, with the
unwritable-directory set invariant. -/
theorem applyFold_spec (ctx : Ctx) (files : List FileDesc) :
    ∀ acc : St × List FsEvent,
      ((files.foldl (applyStep ctx) acc).1.filesApplied =
        acc.1.filesApplied +
          files.countP (fun f => descOutcome ctx acc.1.fs.unwritableDirs f == Outcome.applied)) ∧
      ((files.foldl (applyStep ctx) acc).1.errors.length =
        acc.1.errors.length +
          files.countP (fun f => descOutcome ctx acc.1.fs.unwritableDirs f == Outcome.errored)) ∧
      (files.foldl (applyStep ctx) acc).1.fs.unwritableDirs = acc.1.fs.unwritableDirs := by
  induction files with
  | nil => intro acc; simp
  | cons f fs ih =>
    intro acc
    obtain ⟨pa, pb, pc⟩ := processFile_outcome ctx acc.1 f
    obtain ⟨ha, hb, hc⟩ := ih (applyStep ctx acc f)
    have hstep : (applyStep ctx acc f).1 = (processFile ctx acc.1 f).1 := rfl
    have hunw : (applyStep ctx acc f).1.fs.unwritableDirs = acc.1.fs.unwritableDirs := by
      rw [hstep, pc]
    refine ⟨?_, ?_, ?_⟩
    · rw [List.foldl_cons, ha, hunw, hstep, pa, List.countP_cons]
      simp only [beq_iff_eq]
      omega
    · rw [List.foldl_cons, hb, hunw, hstep, pb, List.countP_cons]
      simp only [beq_iff_eq]
      omega
    · rw [List.foldl_cons, hc, hunw]

/-- The category-then-file double fold equals one fold over the flattened
descriptor sequence. -/
theorem applyCats_eq_join (ctx : Ctx) (cats : List FileCategory) (acc : St × List FsEvent) :
    cats.foldl (fun a cat => cat.files.foldl (applyStep ctx) a) acc =
      ((cats.map FileCategory.files).flatten).foldl (applyStep ctx) acc := by
  induction cats generalizing acc with
  | nil => simp
  | cons cat cats ih =>
    simp only [List.foldl_cons, List.map_cons, List.flatten_cons, List.foldl_append]
    exact ih _

/-- C2: over a batch whose flattened descriptor list has exactly one member
with an erroring outcome while all the remaining `N-1` members apply, the
call returns normally (no throw) with `appliedCount = N-1` and exactly one
recorded error — one file's failure neither aborts the batch nor escapes the
loop. -/
theorem C2_error_isolation (ctx : Ctx) (fs₀ : FS) (cats : List FileCategory)
    (hroot : ctx.projectRoot ∈ fs₀.dirs)
    (h1 : ((cats.map FileCategory.files).flatten).countP
        (fun f => descOutcome ctx fs₀.unwritableDirs f == Outcome.errored) = 1)
    (h2 : ((cats.map FileCategory.files).flatten).countP
        (fun f => descOutcome ctx fs₀.unwritableDirs f == Outcome.applied) =
      ((cats.map FileCategory.files).flatten).length - 1) :
    ∃ res rest, applyGeneratedFiles ctx fs₀ cats = .ok (res, rest) ∧
      res.count = ((cats.map FileCategory.files).flatten).length - 1 ∧
      res.errors.length = 1 := by
  unfold applyGeneratedFiles
  rw [if_pos hroot]
  obtain ⟨ha, hb, _⟩ := applyFold_spec ctx ((cats.map FileCategory.files).flatten)
    (⟨fs₀, 0, 0, [], []⟩, ([] : List FsEvent))
  refine ⟨_, _, rfl, ?_, ?_⟩
  · simp only [applyCats_eq_join, ha]
    simpa using h2
  · simp only [applyCats_eq_join, hb]
    simpa using h1

/-- Witness for C2: the two-descriptor batch with exactly one unwritable
target yields one applied file and one error. -/
theorem C2_error_isolation_witness :
    ∃ res rest, applyGeneratedFiles exCtx c2fs c2cats = .ok (res, rest) ∧
      res.count = ((c2cats.map FileCategory.files).flatten).length - 1 ∧
      res.errors.length = 1 :=
  C2_error_isolation exCtx c2fs c2cats (by decide) (by decide) (by decide)

/-- C9: on a project tree with no build manifest, no application config and
no marker-bearing source files, the probe returns `configured = false` with
every component flag false (it is a total function — nothing throws); and an
unreadable subdirectory contributes no files at all: pruning it from a
directory's entries leaves the scan result unchanged. -/
theorem C9_status_probe_tolerance :
    (∀ (checkPath : Str) (t : DirTree),
      readFileT t [sPomXml] = none →
      readFileT t [sGradle] = none →
      readFileT t [sSrcSeg, sMainSeg, sResourcesSeg, sAppYml] = none →
      readFileT t [sSrcSeg, sMainSeg, sResourcesSeg, sAppProps] = none →
      (∀ pr ∈ probeJavaFiles checkPath t,
        containsSub sEntityM pr.2 = false ∧ containsSub sRepositoryM pr.2 = false ∧
        containsSub sService pr.2 = false ∧ containsSub sRestController pr.2 = false) →
      checkIntegrationStatus checkPath t = ⟨false, false, false, false, false, false, false⟩) ∧
    (∀ (p nm : Str) (sub es₁ es₂ : List (Str × DirTree)),
      findJavaFiles p (.dir true (es₁ ++ (nm, .dir false sub) :: es₂)) =
        findJavaFiles p (.dir true (es₁ ++ es₂))) := by
  constructor
  · intro checkPath t h1 h2 h3 h4 hjf
    have hEnt : (probeJavaFiles checkPath t).any (fun f => containsSub sEntityM f.2) = false :=
      List.any_eq_false.mpr (fun x hx => by simp [(hjf x hx).1])
    have hRepo : (probeJavaFiles checkPath t).any
        (fun f => containsSub sRepositoryM f.2 && containsSub sRepoSeg f.1) = false :=
      List.any_eq_false.mpr (fun x hx => by simp [(hjf x hx).2.1])
    have hSvc : (probeJavaFiles checkPath t).any (fun f => containsSub sService f.2) = false :=
      List.any_eq_false.mpr (fun x hx => by simp [(hjf x hx).2.2.1])
    have hCtl : (probeJavaFiles checkPath t).any
        (fun f => containsSub sRestController f.2) = false :=
      List.any_eq_false.mpr (fun x hx => by simp [(hjf x hx).2.2.2])
    simp only [checkIntegrationStatus, h1, h2, h3, h4, hEnt, hRepo, hSvc, hCtl]
    simp
    decide
  · intro p nm sub es₁ es₂
    show findJavaFilesList p (es₁ ++ (nm, .dir false sub) :: es₂) =
      findJavaFilesList p (es₁ ++ es₂)
    induction es₁ with
    | nil =>
      simp only [List.nil_append, findJavaFilesList, findJavaFiles]
    | cons e es ih =>
      cases e with
      | mk n child =>
        simp only [List.cons_append, findJavaFilesList]
        exact congrArg _ ih

/-- Witness for C9: the empty readable directory probes to all-false, and
pruning a concrete unreadable subdirectory (hiding a marker-bearing Java
file) does not change the scan. -/
theorem C9_status_probe_tolerance_witness :
    checkIntegrationStatus c9pathPfx c9tree0 = ⟨false, false, false, false, false, false, false⟩ ∧
    findJavaFiles c9pathPfx
        (.dir true ([] ++ (c9lockedName, .dir false [(c9javaName, .file c9secret)]) ::
          [(c9okName, .file c9okContent)])) =
      findJavaFiles c9pathPfx (.dir true ([] ++ [(c9okName, .file c9okContent)])) :=
  ⟨C9_status_probe_tolerance.1 c9pathPfx c9tree0 (by decide) (by decide) (by decide) (by decide)
      (by decide),
   C9_status_probe_tolerance.2 c9pathPfx c9lockedName [(c9javaName, .file c9secret)] []
      [(c9okName, .file c9okContent)]⟩

/-- `findIdx?` skips a prefix none of whose elements satisfy the predicate. -/
theorem findIdx?_append_none (p : Char → Bool) (xs ys : Str) (h : ∀ x ∈ xs, p x = false) :
    ∀ i, List.findIdx? p (xs ++ ys) i = List.findIdx? p ys (i + xs.length) := by
  induction xs with
  | nil => intro i; simp
  | cons x xs ih =>
    intro i
    rw [List.cons_append, List.findIdx?_cons]
    rw [if_neg (by simp [h x (by simp)])]
    rw [ih (fun a ha => h a (by simp [ha])) (i + 1)]
    congr 1
    simp only [List.length_cons]
    omega

/-- A list is a Boolean prefix of itself followed by anything. -/
theorem isPrefixOf_append_self (xs ys : Str) : xs.isPrefixOf (xs ++ ys) = true := by
  induction xs with
  | nil => simp [List.isPrefixOf]
  | cons x l ih => simp [List.isPrefixOf, ih]

/-- The package regex matches at the head of `package <nm>;<t>` (non-empty
semicolon-free name), with the first semicolon at index `nm.length + 1` after
the keyword. -/
theorem tryKeywordSemi_pkg (nm t : Str) (h1 : nm ≠ []) (h2 : ';' ∉ nm) :
    tryKeywordSemi kwPackage (kwPackage ++ ' ' :: (nm ++ ';' :: t)) = some (nm.length + 1) := by
  unfold tryKeywordSemi
  rw [if_pos (isPrefixOf_append_self _ _)]
  rw [List.drop_left' rfl]
  simp only [List.head?_cons]
  rw [if_pos (by decide)]
  have hfi : List.findIdx? (· == ';') (' ' :: (nm ++ ';' :: t)) = some (nm.length + 1) := by
    have hn : ∀ x ∈ (' ' :: nm), ((x == ';') : Bool) = false := by
      intro x hx
      rcases List.mem_cons.mp hx with hx | hx
      · subst hx; decide
      · simp only [beq_eq_false_iff_ne]
        intro hh
        exact h2 (hh ▸ hx)
    have := findIdx?_append_none (· == ';') (' ' :: nm) (';' :: t) hn 0
    rw [show (' ' :: nm) ++ (';' :: t) = ' ' :: (nm ++ ';' :: t) from by simp] at this
    rw [this, List.findIdx?_cons]
    rw [if_pos (by decide)]
    simp
  rw [hfi]
  have hlen : 1 ≤ nm.length := List.length_pos.mpr h1
  show (if 2 ≤ nm.length + 1 then some (nm.length + 1) else none) = some (nm.length + 1)
  rw [if_pos (by omega)]

/-- A successful keyword match at the head of the scan is the first match. -/
theorem findPackageMatchFrom_eq (s : Str) (i j : Nat)
    (hs : tryKeywordSemi kwPackage s = some j) (hne : s ≠ []) :
    findPackageMatchFrom s i = some (i, i + kwPackage.length + j + 1) := by
  cases s with
  | nil => exact absurd rfl hne
  | cons c rest => simp only [findPackageMatchFrom, hs]

/-- The package declaration of `package <nm>;<t>` is found at index 0 with
end offset `nm.length + 9`. -/
theorem findPackageMatch_pkg (nm t : Str) (h1 : nm ≠ []) (h2 : ';' ∉ nm) :
    findPackageMatch (kwPackage ++ ' ' :: (nm ++ ';' :: t)) = some (0, nm.length + 9) := by
  unfold findPackageMatch
  rw [findPackageMatchFrom_eq _ 0 (nm.length + 1) (tryKeywordSemi_pkg nm t h1 h2) (by simp)]
  have k7 : kwPackage.length = 7 := by decide
  rw [k7]
  simp only [Option.some.injEq, Prod.mk.injEq, true_and]
  omega

/-- Import-line removal passes over a newline-free prefix unchanged (each
removed match starts with a newline). -/
theorem removeNLImports_append_no_nl (x t : Str) (h : '\n' ∉ x) :
    removeNLImports (x ++ t) = x ++ removeNLImports t := by
  induction x with
  | nil => simp
  | cons c cs ih =>
    have hc : ¬ (c = '\n') := fun hh => h (by simp [hh])
    show removeNLImportsAux 0 (c :: (cs ++ t)) = c :: (cs ++ removeNLImportsAux 0 t)
    simp only [removeNLImportsAux]
    rw [if_neg hc]
    exact congrArg _ (ih (fun hh => h (by simp [hh])))

/-- `updateJavaImports` on a content starting with a well-formed package
declaration splices the joined import section immediately after the
declaration and strips the import lines from the remainder. -/
theorem updateJavaImports_pkg (nm R : Str) (imports : List Str)
    (h1 : nm ≠ []) (h2 : ';' ∉ nm) (h3 : '\n' ∉ nm) :
    updateJavaImports (kwPackage ++ ' ' :: (nm ++ ';' :: R)) imports =
      kwPackage ++ ' ' :: (nm ++ [';']) ++
        (if imports.isEmpty then [] else nlnl ++ List.intercalate ['\n'] imports) ++
        removeNLImports R := by
  have hsh : kwPackage ++ ' ' :: (nm ++ ';' :: R) = (kwPackage ++ ' ' :: (nm ++ [';'])) ++ R := by
    simp
  have hnl : '\n' ∉ kwPackage ++ ' ' :: (nm ++ [';']) := by
    intro hmem
    rcases List.mem_append.mp hmem with hmem | hmem
    · exact absurd hmem (by decide)
    · rcases List.mem_cons.mp hmem with hmem | hmem
      · exact absurd hmem (by decide)
      · rcases List.mem_append.mp hmem with hmem | hmem
        · exact h3 hmem
        · exact absurd hmem (by decide)
  have hlen : (kwPackage ++ ' ' :: (nm ++ [';'])).length = nm.length + 9 := by
    have k7 : kwPackage.length = 7 := by decide
    simp [k7]
    omega
  simp only [updateJavaImports, findPackageMatch_pkg nm R h1 h2]
  rw [hsh]
  rw [removeNLImports_append_no_nl _ _ hnl]
  rw [List.take_left' hlen, List.drop_left' hlen]

/-- `dedupFirstAux` only depends on the membership of its seen set. -/
theorem dedupFirstAux_congr (seen₁ seen₂ : List Str) (hs : ∀ a, a ∈ seen₁ ↔ a ∈ seen₂) :
    ∀ l, dedupFirstAux seen₁ l = dedupFirstAux seen₂ l := by
  intro l
  induction l generalizing seen₁ seen₂ with
  | nil => rfl
  | cons a l ih =>
    by_cases ha : a ∈ seen₁
    · rw [show dedupFirstAux seen₁ (a :: l) = dedupFirstAux seen₁ l from by
          simp [dedupFirstAux, ha],
        show dedupFirstAux seen₂ (a :: l) = dedupFirstAux seen₂ l from by
          simp [dedupFirstAux, (hs a).mp ha]]
      exact ih seen₁ seen₂ hs
    · have ha₂ : a ∉ seen₂ := fun hh => ha ((hs a).mpr hh)
      rw [show dedupFirstAux seen₁ (a :: l) = a :: dedupFirstAux (a :: seen₁) l from by
          simp [dedupFirstAux, ha],
        show dedupFirstAux seen₂ (a :: l) = a :: dedupFirstAux (a :: seen₂) l from by
          simp [dedupFirstAux, ha₂]]
      exact congrArg _ (ih (a :: seen₁) (a :: seen₂) (fun b => by simp [hs b]))

/-- Adding an element to the seen set is the same as pre-filtering it away. -/
theorem dedupFirstAux_cons_seen (z : Str) :
    ∀ (l seen : List Str), dedupFirstAux (z :: seen) l =
      dedupFirstAux seen (l.filter (fun y => decide (y ≠ z))) := by
  intro l
  induction l with
  | nil => intro seen; rfl
  | cons w l ih =>
    intro seen
    by_cases hwz : w = z
    · subst hwz
      rw [show dedupFirstAux (w :: seen) (w :: l) = dedupFirstAux (w :: seen) l from by
          simp [dedupFirstAux]]
      rw [List.filter_cons, if_neg (by simp)]
      exact ih seen
    · by_cases hws : w ∈ seen
      · rw [show dedupFirstAux (z :: seen) (w :: l) = dedupFirstAux (z :: seen) l from by
            simp [dedupFirstAux, hws, hwz]]
        rw [List.filter_cons, if_pos (by simp [hwz])]
        rw [show dedupFirstAux seen (w :: l.filter (fun y => decide (y ≠ z))) =
            dedupFirstAux seen (l.filter (fun y => decide (y ≠ z))) from by
          simp [dedupFirstAux, hws]]
        exact ih seen
      · have hw : w ∉ z :: seen := by simp [hwz, hws]
        rw [show dedupFirstAux (z :: seen) (w :: l) = w :: dedupFirstAux (w :: z :: seen) l from by
            simp [dedupFirstAux, hw]]
        rw [List.filter_cons, if_pos (by simp [hwz])]
        rw [show dedupFirstAux seen (w :: l.filter (fun y => decide (y ≠ z))) =
            w :: dedupFirstAux (w :: seen) (l.filter (fun y => decide (y ≠ z))) from by
          simp [dedupFirstAux, hws]]
        refine congrArg _ ?_
        rw [dedupFirstAux_congr (w :: z :: seen) (z :: w :: seen) (fun b => by simp; tauto) l]
        rw [ih (w :: seen)]

/-- First-occurrence de-duplication of a duplicate-free list followed by
another list: the first list survives verbatim, and from the second only the
elements not already present remain (themselves de-duplicated). -/
theorem dedupFirst_append (xs ys : List Str) (h : xs.Nodup) :
    dedupFirst (xs ++ ys) = xs ++ dedupFirst (ys.filter (fun y => decide (y ∉ xs))) := by
  unfold dedupFirst
  suffices hgen : ∀ (xs seen : List Str), xs.Nodup → (∀ a ∈ xs, a ∉ seen) →
      dedupFirstAux seen (xs ++ ys) =
        xs ++ dedupFirstAux seen (ys.filter (fun y => decide (y ∉ xs))) by
    have := hgen xs [] h (by simp)
    rw [this]
  intro xs
  induction xs with
  | nil =>
    intro seen _ _
    simp
  | cons x xs ih =>
    intro seen hnd hdisj
    have hx : x ∉ seen := hdisj x (by simp)
    rw [show dedupFirstAux seen ((x :: xs) ++ ys) =
        x :: dedupFirstAux (x :: seen) (xs ++ ys) from by simp [dedupFirstAux, hx]]
    have hnd' := (List.nodup_cons.mp hnd).2
    have hxnot := (List.nodup_cons.mp hnd).1
    rw [ih (x :: seen) hnd' (fun a ha => by
      simp only [List.mem_cons]
      push_neg
      exact ⟨fun hh => hxnot (hh ▸ ha), hdisj a (by simp [ha])⟩)]
    rw [List.cons_append]
    refine congrArg _ (congrArg _ ?_)
    rw [dedupFirstAux_cons_seen x (ys.filter (fun y => decide (y ∉ xs))) seen]
    rw [List.filter_filter]
    have hpred : (fun a => decide (a ≠ x) && decide (a ∉ xs)) =
        (fun y : Str => decide (y ∉ x :: xs)) := by
      funext y
      by_cases hy1 : y = x <;> by_cases hy2 : y ∈ xs <;> simp [hy1, hy2]
    rw [hpred]

/-- C8: for a smart Java merge where the existing content carries a
controller/service marker, the class-body split succeeds, and the text before
the closing brace starts with a well-formed package declaration
(`package <nm>;`, with `nm` non-empty and free of `;` and newlines) followed
by a body with at least one import and no duplicate imports, the merged
result is exactly: the package declaration, then an import block holding the
existing file's import statements in their original order followed by the new
content's import statements not already present (de-duplicated), then the
remaining body (with the spliced method section) with its old import lines
removed.  When the marker is absent or the split fails, the result is the
existing content, the separator comment, and the new content. -/
theorem C8_java_smart_merge :
    (∀ (e n nm bp cl : Str),
      (containsSub sRestController e || containsSub sService e) = true →
      classSplit e = some (kwPackage ++ ' ' :: (nm ++ ';' :: bp), cl) →
      nm ≠ [] → ';' ∉ nm → '\n' ∉ nm →
      extractJavaImports e ≠ [] →
      (extractJavaImports e).Nodup →
      mergeJavaFile e n =
        kwPackage ++ ' ' :: (nm ++ [';']) ++
          (nlnl ++ List.intercalate ['\n']
            (extractJavaImports e ++
              dedupFirst ((extractJavaImports n).filter
                (fun y => decide (y ∉ extractJavaImports e))))) ++
          removeNLImports (bp ++ methodSection n ++ cl)) ∧
    (∀ e n : Str,
      (containsSub sRestController e || containsSub sService e) = false ∨ classSplit e = none →
      mergeJavaFile e n = e ++ sSepJava ++ n) := by
  constructor
  · intro e n nm bp cl hmark hsplit h1 h2 h3 himp hnodup
    have hM : (if (extractJavaMethods n).isEmpty = true then ([] : Str)
        else sMethodsComment ++ List.intercalate nlnl (extractJavaMethods n)) =
        methodSection n := rfl
    simp only [mergeJavaFile, hsplit]
    rw [if_pos hmark]
    rw [hM]
    rw [show (kwPackage ++ ' ' :: (nm ++ ';' :: bp)) ++ methodSection n ++ cl =
        kwPackage ++ ' ' :: (nm ++ ';' :: (bp ++ methodSection n ++ cl)) from by simp]
    rw [updateJavaImports_pkg nm _ _ h1 h2 h3]
    have hne : (dedupFirst (extractJavaImports e ++ extractJavaImports n)).isEmpty = false := by
      cases hei : extractJavaImports e with
      | nil => exact absurd hei himp
      | cons a l => simp [dedupFirst, dedupFirstAux]
    rw [hne]
    rw [if_neg (by simp)]
    rw [dedupFirst_append _ _ hnodup]
  · intro e n h
    rcases h with h | h
    · simp only [mergeJavaFile]
      rw [if_neg (by simp [h])]
    · simp only [mergeJavaFile, h]
      split <;> rfl

/-- Witness for C8: a concrete `@Service` file with one import merged with an
import-only new content, and a concrete marker-free file taking the fallback
append. -/
theorem C8_java_smart_merge_witness :
    mergeJavaFile c8e c8n =
      kwPackage ++ ' ' :: (c8nm ++ [';']) ++
        (nlnl ++ List.intercalate ['\n']
          (extractJavaImports c8e ++
            dedupFirst ((extractJavaImports c8n).filter
              (fun y => decide (y ∉ extractJavaImports c8e))))) ++
        removeNLImports (c8bprime ++ methodSection c8n ++ c8cl) ∧
    mergeJavaFile c8fallbackE c8n = c8fallbackE ++ sSepJava ++ c8n :=
  ⟨C8_java_smart_merge.1 c8e c8n c8nm c8bprime c8cl (by decide) (by decide) (by decide)
      (by decide) (by decide) (by decide) (by decide),
   C8_java_smart_merge.2 c8fallbackE c8n (Or.inl (by decide))⟩
